import Mathlib

/-!
# Verification of the fake-clock scheduling engine (`go-toolbelt/clock`)

A shallow embedding of `src/fake.go`.  Time instants and durations are
modelled as `Int` (nanoseconds).  Go channels of capacity 1 are modelled by
the list of values ever sent on them (`Sleeper.sent`); asynchronous callback
invocations are modelled by a counter (`Sleeper.calls`).  Go's shared mutable
sleeper objects (referenced both by the registry and by timer/ticker handles)
are modelled by a heap: `FakeClock.heap` is the list of all allocated
sleepers, a sleeper is identified by its heap index, and the registry
`FakeClock.reg` holds heap indices.  Blockers are given fresh identifiers so
that the one-shot completion signal can be modelled by the `signalled` log.
-/

set_option maxHeartbeats 1000000

namespace Clock

/-- Embeds Go `type sleeper struct` (src/fake.go).  `hasC`/`sent` model the
optional capacity-1 channel `c` and the values sent on it; `hasF`/`calls`
model the optional callback `f` and how many times it was invoked. -/
structure Sleeper where
  i : Int
  untilT : Int
  woke : Bool
  hasC : Bool
  sent : List Int
  hasF : Bool
  calls : Nat
deriving Repr, DecidableEq

/-- Embeds `func (s *sleeper) wake()`: a no-op when already woken, otherwise
sets the woken flag, sends `untilT` on the channel when present, and invokes
the callback when present. -/
def Sleeper.wake (s : Sleeper) : Sleeper :=
  if s.woke then s
  else
    let s1 : Sleeper := { s with woke := true }
    let s2 : Sleeper := if s1.hasC then { s1 with sent := s1.sent ++ [s1.untilT] } else s1
    if s2.hasF then { s2 with calls := s2.calls + 1 } else s2

/-- Embeds Go `type blocker struct`; `id` identifies the `done` channel so
that closing it can be logged. -/
structure Blocker where
  id : Nat
  n : Nat
deriving Repr, DecidableEq

/-- Embeds Go `type fakeClock struct`.  `heap` is the allocation arena for
sleeper objects, `reg` is the `sleepers` slice (as heap indices),
`signalled` logs every closed blocker `done` channel in order. -/
structure FakeClock where
  atT : Int
  heap : List Sleeper
  reg : List Nat
  blockers : List Blocker
  signalled : List Nat
  nextBlockerId : Nat
deriving Repr, DecidableEq

/-- The default sleeper, used only as the out-of-range fallback of `getS`. -/
def defaultSleeper : Sleeper :=
  { i := 0, untilT := 0, woke := false, hasC := false, sent := [], hasF := false, calls := 0 }

/-- Dereference a sleeper pointer (heap index). -/
def FakeClock.getS (c : FakeClock) (id : Nat) : Sleeper :=
  c.heap.getD id defaultSleeper

/-- Write through a sleeper pointer (heap index). -/
def FakeClock.setS (c : FakeClock) (id : Nat) (s : Sleeper) : FakeClock :=
  { c with heap := c.heap.set id s }

/-- Allocate a fresh sleeper object, returning its heap index. -/
def FakeClock.alloc (c : FakeClock) (s : Sleeper) : FakeClock × Nat :=
  ({ c with heap := c.heap ++ [s] }, c.heap.length)

/-- Embeds `func NewFakeClockAt`. -/
def NewFakeClockAt (t : Int) : FakeClock :=
  { atT := t, heap := [], reg := [], blockers := [], signalled := [], nextBlockerId := 0 }

/-- Embeds `func (clock *fakeClock) checkBlockers()`: every blocker whose
threshold is at most the current registry size is signalled (its `done`
channel closed) and removed; the rest are kept in order. -/
def checkBlockers (c : FakeClock) : FakeClock :=
  { c with
    blockers := c.blockers.filter (fun b => c.reg.length < b.n),
    signalled := c.signalled ++ (c.blockers.filter (fun b => b.n ≤ c.reg.length)).map Blocker.id }

/-- Embeds `func (clock *fakeClock) appendSleeper(s *sleeper)`:
if the deadline is not strictly after the current instant, mark the sleeper
unregistered and wake it synchronously; otherwise record its position,
append it to the registry and re-evaluate the blockers. -/
def appendSleeper (c : FakeClock) (id : Nat) : FakeClock :=
  let s := c.getS id
  if s.untilT ≤ c.atT then
    c.setS id (Sleeper.wake { s with i := -1 })
  else
    let c1 := c.setS id { s with i := (c.reg.length : Int) }
    checkBlockers { c1 with reg := c1.reg ++ [id] }

/-- Embeds `func (clock *fakeClock) removeSleeper(s *sleeper) bool`:
O(1) removal by swap-with-last-and-truncate.  Returns `false` when the
sleeper records a negative (unregistered) index, `true` otherwise.  The
moved sleeper's recorded index is updated before the removed sleeper's
index is set to `-1`, exactly as in the source. -/
def removeSleeper (c : FakeClock) (id : Nat) : FakeClock × Bool :=
  let s := c.getS id
  if s.i < 0 then (c, false)
  else
    let i := s.i.toNat
    let lastId := c.reg.getD (c.reg.length - 1) 0
    let c1 := { c with reg := c.reg.set i lastId }
    let c2 := c1.setS lastId { c1.getS lastId with i := (i : Int) }
    let c3 := c2.setS id { c2.getS id with i := -1 }
    ({ c3 with reg := c3.reg.dropLast }, true)

/-- Embeds `func (clock *fakeClock) checkSleepers()`: empty the registry and
re-offer every previously pending sleeper to `appendSleeper`. -/
def checkSleepers (c : FakeClock) : FakeClock :=
  c.reg.foldl appendSleeper { c with reg := [] }

/-- Embeds `func (clock *fakeClock) Advance(d time.Duration)`: a silent
no-op for non-positive `d`; otherwise move the instant forward by `d` and
re-register every pending sleeper. -/
def Advance (c : FakeClock) (d : Int) : FakeClock :=
  if d ≤ 0 then c
  else checkSleepers { c with atT := c.atT + d }

/-- Embeds `func (clock *fakeClock) After(d time.Duration)`: negative `d`
is clamped to zero; a fresh channel-carrying sleeper with deadline
`atT + d` is created and offered to the registry.  Returns the heap index
of the sleeper, whose `sent` list is the returned channel. -/
def After (c : FakeClock) (d : Int) : FakeClock × Nat :=
  let d1 := if d < 0 then 0 else d
  let p := c.alloc
    { i := 0, untilT := c.atT + d1, woke := false, hasC := true, sent := [], hasF := false,
      calls := 0 }
  (appendSleeper p.1 p.2, p.2)

/-- Embeds Go `type fakeTimer struct` (the `clock` back-pointer is implicit:
every operation takes the clock state explicitly). -/
structure Timer where
  stopped : Bool
  sid : Nat
deriving Repr, DecidableEq

/-- Embeds `func (clock *fakeClock) AfterFunc(d, f)`: a callback-style
sleeper with deadline `atT + d`, registered immediately. -/
def AfterFunc (c : FakeClock) (d : Int) : FakeClock × Timer :=
  let p := c.alloc
    { i := 0, untilT := c.atT + d, woke := false, hasC := false, sent := [], hasF := true,
      calls := 0 }
  (appendSleeper p.1 p.2, { stopped := false, sid := p.2 })

/-- Embeds `func (clock *fakeClock) NewTimer(d)`: allocates a channel-style
sleeper with index `-1` (unregistered) and deadline `atT + d`; nothing is
registered yet. -/
def NewTimer (c : FakeClock) (d : Int) : FakeClock × Timer :=
  let p := c.alloc
    { i := -1, untilT := c.atT + d, woke := false, hasC := true, sent := [], hasF := false,
      calls := 0 }
  (p.1, { stopped := false, sid := p.2 })

/-- Embeds `func (timer *fakeTimer) C()`: lazily registers the sleeper when
its recorded index is negative, then returns its channel. -/
def Timer.chanC (t : Timer) (c : FakeClock) : FakeClock :=
  if (c.getS t.sid).i < 0 then appendSleeper c t.sid else c

/-- Embeds `func (timer *fakeTimer) Stop() bool`: the deferred
`timer.stopped = true` runs on every path; a second call returns `false`
immediately; otherwise the sleeper is removed (`true` if it was pending)
and, failing that, the result is whether the deadline is still strictly in
the future. -/
def Timer.Stop (t : Timer) (c : FakeClock) : FakeClock × Timer × Bool :=
  if t.stopped then (c, { t with stopped := true }, false)
  else
    let p := removeSleeper c t.sid
    if p.2 then (p.1, { t with stopped := true }, true)
    else (p.1, { t with stopped := true }, decide (p.1.atT < (p.1.getS t.sid).untilT))

/-- Embeds `func (timer *fakeTimer) Reset(d) bool`: clamps negative `d` to
zero, re-arms the sleeper (new deadline `atT + d`, woken flag cleared, fresh
channel), computes the return value by removing the old registration, and
then (deferred) re-registers the sleeper only when it is callback-style. -/
def Timer.Reset (t : Timer) (c : FakeClock) (d : Int) : FakeClock × Bool :=
  let d1 := if d < 0 then 0 else d
  let s := c.getS t.sid
  let c1 := c.setS t.sid { s with untilT := c.atT + d1, woke := false, sent := [] }
  let p := removeSleeper c1 t.sid
  let c3 := if (p.1.getS t.sid).hasF then appendSleeper p.1 t.sid else p.1
  (c3, p.2)

/-- Embeds Go `type fakeTicker struct`. -/
structure Ticker where
  interval : Int
  next : Int
  stopped : Bool
  sid : Nat
deriving Repr, DecidableEq

/-- Embeds `func (clock *fakeClock) NewTicker(d)`: `none` models the panic
on a non-positive interval; otherwise an inert sleeper with index `-1` is
allocated and `next` is set to `atT + d`. -/
def NewTicker (c : FakeClock) (d : Int) : Option (FakeClock × Ticker) :=
  if d ≤ 0 then none
  else
    let p := c.alloc
      { i := -1, untilT := 0, woke := false, hasC := false, sent := [], hasF := false,
        calls := 0 }
    some (p.1, { interval := d, next := c.atT + d, stopped := false, sid := p.2 })

/-- Embeds `func (ticker *fakeTicker) C()`: when stopped, returns a fresh
never-firing channel (`none`); otherwise allocates a fresh channel-carrying
sleeper at `next`, registers it, makes it the tracked sleeper and advances
`next` by the interval.  The `Option Nat` is the returned channel: the heap
index of the sleeper owning it, or `none` for a channel nothing writes. -/
def Ticker.chanC (tk : Ticker) (c : FakeClock) : FakeClock × Ticker × Option Nat :=
  if tk.stopped then (c, tk, none)
  else
    let p := c.alloc
      { i := 0, untilT := tk.next, woke := false, hasC := true, sent := [], hasF := false,
        calls := 0 }
    let c2 := appendSleeper p.1 p.2
    (c2, { tk with sid := p.2, next := tk.next + tk.interval }, some p.2)

/-- Embeds `func (ticker *fakeTicker) Stop()`: marks the ticker stopped and
removes the currently tracked sleeper. -/
def Ticker.tStop (tk : Ticker) (c : FakeClock) : FakeClock × Ticker :=
  ((removeSleeper c tk.sid).1, { tk with stopped := true })

/-- Embeds `func (ticker *fakeTicker) Reset(d)`: calls `Stop`, clears the
stopped flag, adopts the new interval, and assigns `atT + d` to the tracked
sleeper's `untilT` field — note the source writes `ticker.sleeper.untilT`,
not `ticker.next`. -/
def Ticker.tReset (tk : Ticker) (c : FakeClock) (d : Int) : FakeClock × Ticker :=
  let p := tk.tStop c
  let tk2 : Ticker := { p.2 with stopped := false, interval := d }
  let c2 := p.1.setS tk2.sid { p.1.getS tk2.sid with untilT := p.1.atT + d }
  (c2, tk2)

/-- Embeds `func (clock *fakeClock) Tick(d)`: returns `none` (a closure
yielding a nil channel) for non-positive `d`, otherwise the ticker whose
`chanC` the returned closure captures. -/
def Tick (c : FakeClock) (d : Int) : Option (FakeClock × Ticker) :=
  if d ≤ 0 then none
  else NewTicker c d

/-- Embeds `func (clock *fakeClock) Until(n int)`: if at least `n` sleepers
are pending the fresh `done` channel is closed immediately (logged in
`signalled`); otherwise a blocker is stored.  Returns the blocker id. -/
def Until (c : FakeClock) (n : Nat) : FakeClock × Nat :=
  let bid := c.nextBlockerId
  if n ≤ c.reg.length then
    ({ c with signalled := c.signalled ++ [bid], nextBlockerId := bid + 1 }, bid)
  else
    ({ c with
        blockers := c.blockers ++ [Blocker.mk bid n],
        nextBlockerId := bid + 1 }, bid)

/-- The registry back-pointer invariant: every registered id is a valid heap
index; the sleeper stored at position `p` records `p` as its own index; and
a heap sleeper's recorded index is non-negative exactly when it is in the
registry. -/
def RegInv (c : FakeClock) : Prop :=
  (∀ id ∈ c.reg, id < c.heap.length) ∧
  (∀ p, p < c.reg.length → (c.getS (c.reg.getD p 0)).i = (p : Int)) ∧
  (∀ id, id < c.heap.length → (id ∈ c.reg ↔ 0 ≤ (c.getS id).i))

instance : DecidablePred RegInv := by
  intro c
  unfold RegInv
  infer_instance

/-- Well-formedness of a clock state: the registry invariant, and every
pending sleeper is unwoken with a deadline strictly in the future. -/
def WF (c : FakeClock) : Prop :=
  RegInv c ∧ ∀ id ∈ c.reg, (c.getS id).woke = false ∧ c.atT < (c.getS id).untilT

instance : DecidablePred WF := by
  intro c
  unfold WF
  infer_instance

end Clock

namespace Clock

/-! ### Basic lemmas about the state primitives -/

@[simp]
theorem setS_heap_length (c : FakeClock) (id : Nat) (s : Sleeper) :
    (c.setS id s).heap.length = c.heap.length := by
  simp [FakeClock.setS]

@[simp]
theorem setS_atT (c : FakeClock) (id : Nat) (s : Sleeper) : (c.setS id s).atT = c.atT := rfl

@[simp]
theorem setS_reg (c : FakeClock) (id : Nat) (s : Sleeper) : (c.setS id s).reg = c.reg := rfl

@[simp]
theorem setS_blockers (c : FakeClock) (id : Nat) (s : Sleeper) :
    (c.setS id s).blockers = c.blockers := rfl

@[simp]
theorem setS_signalled (c : FakeClock) (id : Nat) (s : Sleeper) :
    (c.setS id s).signalled = c.signalled := rfl

theorem getS_setS_self (c : FakeClock) (id : Nat) (s : Sleeper) (h : id < c.heap.length) :
    (c.setS id s).getS id = s := by
  simp [FakeClock.getS, FakeClock.setS, List.getD_eq_getElem?_getD, List.getElem?_set, h]

theorem getS_setS_ne (c : FakeClock) (id id' : Nat) (s : Sleeper) (h : id' ≠ id) :
    (c.setS id s).getS id' = c.getS id' := by
  simp [FakeClock.getS, FakeClock.setS, List.getD_eq_getElem?_getD,
    List.getElem?_set_ne (Ne.symm h)]

@[simp]
theorem checkBlockers_atT (c : FakeClock) : (checkBlockers c).atT = c.atT := rfl

@[simp]
theorem checkBlockers_heap (c : FakeClock) : (checkBlockers c).heap = c.heap := rfl

@[simp]
theorem checkBlockers_reg (c : FakeClock) : (checkBlockers c).reg = c.reg := rfl

@[simp]
theorem checkBlockers_getS (c : FakeClock) (id : Nat) :
    (checkBlockers c).getS id = c.getS id := rfl

theorem appendSleeper_atT (c : FakeClock) (id : Nat) : (appendSleeper c id).atT = c.atT := by
  unfold appendSleeper
  by_cases h : (c.getS id).untilT ≤ c.atT <;> simp [h]

theorem appendSleeper_heap_length (c : FakeClock) (id : Nat) :
    (appendSleeper c id).heap.length = c.heap.length := by
  unfold appendSleeper
  by_cases h : (c.getS id).untilT ≤ c.atT <;> simp [h]

theorem appendSleeper_getS_ne (c : FakeClock) (id id' : Nat) (h : id' ≠ id) :
    (appendSleeper c id).getS id' = c.getS id' := by
  unfold appendSleeper
  by_cases hd : (c.getS id).untilT ≤ c.atT
  · rw [if_pos hd]
    exact getS_setS_ne _ _ _ _ h
  · rw [if_neg hd]
    exact getS_setS_ne _ _ _ _ h

/-- The registering branch of `appendSleeper`: the sleeper is appended with
its position recorded, and the blockers are re-evaluated against the grown
registry. -/
theorem appendSleeper_future (c : FakeClock) (id : Nat) (hd : c.atT < (c.getS id).untilT) :
    appendSleeper c id =
      checkBlockers
        { c.setS id { c.getS id with i := (c.reg.length : Int) } with reg := c.reg ++ [id] } := by
  unfold appendSleeper
  rw [if_neg (not_le.mpr hd)]
  rfl

/-- The catch-up branch of `appendSleeper`: the sleeper is marked
unregistered and woken synchronously; registry and blockers are untouched. -/
theorem appendSleeper_due (c : FakeClock) (id : Nat) (hd : (c.getS id).untilT ≤ c.atT) :
    appendSleeper c id = c.setS id (Sleeper.wake { c.getS id with i := -1 }) := by
  unfold appendSleeper
  rw [if_pos hd]

end Clock

namespace Clock

/-! ### Lemmas about `Sleeper.wake` and allocation -/

theorem wake_of_woke (s : Sleeper) (h : s.woke = true) : s.wake = s := by
  simp [Sleeper.wake, h]

theorem wake_woke (s : Sleeper) : s.wake.woke = true := by
  unfold Sleeper.wake
  by_cases h : s.woke
  · simp [h]
  · by_cases hc : s.hasC <;> by_cases hf : s.hasF <;> simp [h, hc, hf]

theorem wake_of_not_woke (s : Sleeper) (h : s.woke = false) :
    s.wake = { s with
        woke := true,
        sent := s.sent ++ (if s.hasC then [s.untilT] else []),
        calls := s.calls + (if s.hasF then 1 else 0) } := by
  unfold Sleeper.wake
  by_cases hc : s.hasC <;> by_cases hf : s.hasF <;> simp [h, hc, hf]

@[simp]
theorem alloc_atT (c : FakeClock) (s : Sleeper) : (c.alloc s).1.atT = c.atT := rfl

@[simp]
theorem alloc_reg (c : FakeClock) (s : Sleeper) : (c.alloc s).1.reg = c.reg := rfl

@[simp]
theorem alloc_blockers (c : FakeClock) (s : Sleeper) : (c.alloc s).1.blockers = c.blockers := rfl

@[simp]
theorem alloc_heap_length (c : FakeClock) (s : Sleeper) :
    (c.alloc s).1.heap.length = c.heap.length + 1 := by
  simp [FakeClock.alloc]

@[simp]
theorem alloc_snd (c : FakeClock) (s : Sleeper) : (c.alloc s).2 = c.heap.length := rfl

theorem getS_alloc_new (c : FakeClock) (s : Sleeper) : (c.alloc s).1.getS (c.alloc s).2 = s := by
  simp [FakeClock.alloc, FakeClock.getS, List.getD_append_right]

theorem getS_alloc_old (c : FakeClock) (s : Sleeper) (id : Nat) (h : id < c.heap.length) :
    (c.alloc s).1.getS id = c.getS id := by
  simp [FakeClock.alloc, FakeClock.getS, List.getD_eq_getElem?_getD, List.getElem?_append, h]

end Clock

namespace Clock

theorem appendSleeper_getS_self_due (c : FakeClock) (id : Nat)
    (hd : (c.getS id).untilT ≤ c.atT) (hid : id < c.heap.length) :
    (appendSleeper c id).getS id = Sleeper.wake { c.getS id with i := -1 } := by
  rw [appendSleeper_due _ _ hd]
  exact getS_setS_self _ _ _ hid

theorem appendSleeper_getS_self_future (c : FakeClock) (id : Nat)
    (hd : c.atT < (c.getS id).untilT) (hid : id < c.heap.length) :
    (appendSleeper c id).getS id = { c.getS id with i := (c.reg.length : Int) } := by
  rw [appendSleeper_future _ _ hd]
  exact getS_setS_self _ _ _ hid

theorem appendSleeper_reg_due (c : FakeClock) (id : Nat)
    (hd : (c.getS id).untilT ≤ c.atT) : (appendSleeper c id).reg = c.reg := by
  rw [appendSleeper_due _ _ hd]
  rfl

theorem appendSleeper_reg_future (c : FakeClock) (id : Nat)
    (hd : c.atT < (c.getS id).untilT) : (appendSleeper c id).reg = c.reg ++ [id] := by
  rw [appendSleeper_future _ _ hd]
  rfl

theorem appendSleeper_blockers_due (c : FakeClock) (id : Nat)
    (hd : (c.getS id).untilT ≤ c.atT) : (appendSleeper c id).blockers = c.blockers := by
  rw [appendSleeper_due _ _ hd]
  rfl

theorem appendSleeper_signalled_due (c : FakeClock) (id : Nat)
    (hd : (c.getS id).untilT ≤ c.atT) : (appendSleeper c id).signalled = c.signalled := by
  rw [appendSleeper_due _ _ hd]
  rfl

theorem appendSleeper_blockers_future (c : FakeClock) (id : Nat)
    (hd : c.atT < (c.getS id).untilT) :
    (appendSleeper c id).blockers = c.blockers.filter (fun b => c.reg.length + 1 < b.n) := by
  rw [appendSleeper_future _ _ hd]
  simp [checkBlockers]

theorem appendSleeper_signalled_future (c : FakeClock) (id : Nat)
    (hd : c.atT < (c.getS id).untilT) :
    (appendSleeper c id).signalled =
      c.signalled ++ (c.blockers.filter (fun b => b.n ≤ c.reg.length + 1)).map Blocker.id := by
  rw [appendSleeper_future _ _ hd]
  simp [checkBlockers]

/-! ### Claim C8 -/

/-- The C8 statement for re-offering: heap slot `id` keeps its delivered
values and callback count when offered to `appendSleeper` again. -/
abbrev ReOfferNoDoubleFire (c : FakeClock) (id : Nat) : Prop :=
  ((appendSleeper c id).getS id).sent = (c.getS id).sent ∧
  ((appendSleeper c id).getS id).calls = (c.getS id).calls ∧
  ((appendSleeper c id).getS id).woke = true

/-- C8: waking is idempotent — once a sleeper has been woken, waking it
again changes nothing (no value delivered, no callback invoked), so
re-offering an already-fired sleeper to the registry (as `Advance`'s
re-registration via `checkSleepers` does) never double-fires it. -/
theorem wake_idempotent_claim (s : Sleeper) (c : FakeClock) (id : Nat)
    (hw : (c.getS id).woke = true) :
    Sleeper.wake (Sleeper.wake s) = Sleeper.wake s ∧ ReOfferNoDoubleFire c id := by
  have hidem : ∀ s' : Sleeper, Sleeper.wake (Sleeper.wake s') = Sleeper.wake s' :=
    fun s' => wake_of_woke _ (wake_woke s')
  refine ⟨hidem s, ?_⟩
  have hid : id < c.heap.length := by
    by_contra hcon
    push_neg at hcon
    have hdef : c.getS id = defaultSleeper := List.getD_eq_default _ _ hcon
    rw [hdef] at hw
    simp [defaultSleeper] at hw
  by_cases hd : (c.getS id).untilT ≤ c.atT
  · have h1 := appendSleeper_getS_self_due c id hd hid
    have h2 : Sleeper.wake { c.getS id with i := -1 } = { c.getS id with i := -1 } :=
      wake_of_woke _ (by simpa using hw)
    rw [ReOfferNoDoubleFire, h1, h2]
    simp [hw]
  · have h1 := appendSleeper_getS_self_future c id (not_le.mp hd) hid
    rw [ReOfferNoDoubleFire, h1]
    simp [hw]

/-- Witness for C8 at a concrete woken sleeper. -/
theorem wake_idempotent_claim_witness :
    (((FakeClock.mk 5 [Sleeper.mk (-1) 3 true true [3] false 0] [] [] [] 0).getS 0).woke
        = true) ∧
    (Sleeper.wake (Sleeper.wake (Sleeper.mk 0 7 false true [] false 0))
        = Sleeper.wake (Sleeper.mk 0 7 false true [] false 0) ∧
      ReOfferNoDoubleFire (FakeClock.mk 5 [Sleeper.mk (-1) 3 true true [3] false 0] [] [] [] 0) 0) :=
  ⟨by decide,
    wake_idempotent_claim (Sleeper.mk 0 7 false true [] false 0)
      (FakeClock.mk 5 [Sleeper.mk (-1) 3 true true [3] false 0] [] [] [] 0) 0 (by decide)⟩

/-! ### Claim C10 -/

/-- C10: constructing a ticker with a non-positive interval is the fatal
construction failure (`NewTicker` yields `none`, modelling the panic),
while `Tick` yields a never-firing nil result (`none`, no clock state
produced, nothing registered) for the same non-positive duration; for
positive durations neither fails, and `Tick` is exactly `NewTicker`'s
channel closure. -/
theorem ticker_nonpositive_claim (c : FakeClock) (d : Int) :
    (d ≤ 0 → NewTicker c d = none ∧ Tick c d = none) ∧
    (0 < d → (NewTicker c d).isSome = true ∧ Tick c d = NewTicker c d) := by
  constructor
  · intro h
    exact ⟨by simp [NewTicker, h], by simp [Tick, h]⟩
  · intro h
    have hn : ¬ d ≤ 0 := not_le.mpr h
    constructor
    · simp [NewTicker, hn]
    · simp [Tick, hn]

/-- Witness for C10 at `d = -1` and `d = 2`. -/
theorem ticker_nonpositive_claim_witness :
    ((-1 : Int) ≤ 0 ∧
      (NewTicker (NewFakeClockAt 1) (-1) = none ∧ Tick (NewFakeClockAt 1) (-1) = none)) ∧
    ((0 : Int) < 2 ∧
      ((NewTicker (NewFakeClockAt 1) 2).isSome = true ∧
        Tick (NewFakeClockAt 1) 2 = NewTicker (NewFakeClockAt 1) 2)) :=
  ⟨⟨by decide, (ticker_nonpositive_claim (NewFakeClockAt 1) (-1)).1 (by decide)⟩,
    ⟨by decide, (ticker_nonpositive_claim (NewFakeClockAt 1) 2).2 (by decide)⟩⟩

end Clock

namespace Clock

/-! ### Claim C2 -/

/-- The C2 statement for one registration of an unwoken sleeper `id`:
a not-strictly-future deadline fires synchronously (value delivered and/or
callback invoked) without touching the registry and marks the sleeper
unregistered; a strictly-future deadline appends the sleeper with its
position recorded and re-evaluates all blockers against the grown
registry. -/
abbrev RegisterClaim (c : FakeClock) (id : Nat) : Prop :=
  ((c.getS id).untilT ≤ c.atT →
    (appendSleeper c id).reg = c.reg ∧
    (appendSleeper c id).blockers = c.blockers ∧
    (appendSleeper c id).getS id =
      { c.getS id with
          i := -1, woke := true,
          sent := (c.getS id).sent ++ (if (c.getS id).hasC then [(c.getS id).untilT] else []),
          calls := (c.getS id).calls + (if (c.getS id).hasF then 1 else 0) }) ∧
  (c.atT < (c.getS id).untilT →
    (appendSleeper c id).reg = c.reg ++ [id] ∧
    (appendSleeper c id).getS id = { c.getS id with i := (c.reg.length : Int) } ∧
    (appendSleeper c id).blockers = c.blockers.filter (fun b => c.reg.length + 1 < b.n) ∧
    (appendSleeper c id).signalled =
      c.signalled ++ (c.blockers.filter (fun b => b.n ≤ c.reg.length + 1)).map Blocker.id)

/-- The C2 statement for `After` with a non-positive duration: the fresh
sleeper fires immediately — its channel already carries the current
instant — and the registry is left unchanged (nothing is pending). -/
abbrev AfterNonPosClaim (c : FakeClock) (d : Int) : Prop :=
  ((After c d).1.getS (After c d).2).woke = true ∧
  ((After c d).1.getS (After c d).2).sent = [c.atT] ∧
  ((After c d).1.getS (After c d).2).i = -1 ∧
  (After c d).1.reg = c.reg

/-- C2: a registration whose deadline is not strictly after the current
instant fires synchronously and is not added to the registry; otherwise the
sleeper is appended with its position recorded and all blockers are
re-evaluated.  In particular `After` (hence `Sleep`) with `d ≤ 0` fires
immediately without leaving a pending sleeper. -/
theorem register_claim (c : FakeClock) (id : Nat) (d : Int)
    (hid : id < c.heap.length) (hw : (c.getS id).woke = false) :
    RegisterClaim c id ∧ (d ≤ 0 → AfterNonPosClaim c d) := by
  refine ⟨⟨?_, ?_⟩, ?_⟩
  · intro hd
    refine ⟨appendSleeper_reg_due c id hd, appendSleeper_blockers_due c id hd, ?_⟩
    rw [appendSleeper_getS_self_due c id hd hid,
      wake_of_not_woke _ (by simpa using hw)]
  · intro hd
    exact ⟨appendSleeper_reg_future c id hd,
      appendSleeper_getS_self_future c id hd hid,
      appendSleeper_blockers_future c id hd,
      appendSleeper_signalled_future c id hd⟩
  · intro hd
    have h0 : c.atT + (if d < 0 then 0 else d) = c.atT := by
      have hz : (if d < 0 then (0 : Int) else d) = 0 := by
        by_cases hneg : d < 0
        · rw [if_pos hneg]
        · rw [if_neg hneg]
          omega
      rw [hz, add_zero]
    set s0 : Sleeper := Sleeper.mk 0 (c.atT + (if d < 0 then 0 else d)) false true [] false 0
      with hs0
    have hget : (c.alloc s0).1.getS (c.alloc s0).2 = s0 := getS_alloc_new c s0
    have hdue0 : s0.untilT ≤ c.atT := by
      rw [hs0]
      show c.atT + (if d < 0 then 0 else d) ≤ c.atT
      rw [h0]
    have hdue : ((c.alloc s0).1.getS (c.alloc s0).2).untilT ≤ (c.alloc s0).1.atT := by
      rw [hget, alloc_atT]
      exact hdue0
    have hlen : (c.alloc s0).2 < (c.alloc s0).1.heap.length := by simp
    have hself := appendSleeper_getS_self_due _ _ hdue hlen
    rw [hget] at hself
    have hwake : Sleeper.wake { s0 with i := -1 } =
        { s0 with i := -1, woke := true, sent := [s0.untilT] } := by
      rw [wake_of_not_woke _ (by rw [hs0])]
      simp
    have hAfter : After c d = (appendSleeper (c.alloc s0).1 (c.alloc s0).2, (c.alloc s0).2) := by
      simp only [After, hs0]
    unfold AfterNonPosClaim
    rw [hAfter]
    refine ⟨?_, ?_, ?_, ?_⟩
    · rw [hself, hwake]
    · rw [hself, hwake, hs0]
      simp [h0]
    · rw [hself, hwake]
    · rw [appendSleeper_reg_due _ _ hdue, alloc_reg]

/-- Witness for C2: a clock at instant 1 holding one pending sleeper with
deadline 2, offered the registration and `After 0`. -/
theorem register_claim_witness :
    (0 < (After (NewFakeClockAt 1) 1).1.heap.length ∧
      ((After (NewFakeClockAt 1) 1).1.getS 0).woke = false) ∧
    (RegisterClaim (After (NewFakeClockAt 1) 1).1 0 ∧
      ((0 : Int) ≤ 0 → AfterNonPosClaim (After (NewFakeClockAt 1) 1).1 0)) :=
  ⟨⟨by decide, by decide⟩,
    register_claim (After (NewFakeClockAt 1) 1).1 0 0 (by decide) (by decide)⟩

end Clock

namespace Clock

/-! ### The registry invariant and `removeSleeper` -/

/-- The observable payload of a sleeper: everything except the registry
back-pointer `i`. -/
def Sleeper.data (s : Sleeper) : Int × Bool × Bool × List Int × Bool × Nat :=
  (s.untilT, s.woke, s.hasC, s.sent, s.hasF, s.calls)

theorem mem_iff_getD (l : List Nat) (x : Nat) :
    x ∈ l ↔ ∃ q, q < l.length ∧ l.getD q 0 = x := by
  rw [List.mem_iff_getElem]
  constructor
  · rintro ⟨i, h, rfl⟩
    exact ⟨i, h, List.getD_eq_getElem _ _ h⟩
  · rintro ⟨q, h, hx⟩
    refine ⟨q, h, ?_⟩
    rw [← List.getD_eq_getElem _ _ h, hx]

theorem nodup_getD_ne (l : List Nat) (hnd : l.Nodup) (q1 q2 : Nat)
    (h1 : q1 < l.length) (h2 : q2 < l.length) (hne : q1 ≠ q2) :
    l.getD q1 0 ≠ l.getD q2 0 := by
  rw [List.getD_eq_getElem _ _ h1, List.getD_eq_getElem _ _ h2]
  intro he
  exact hne ((List.Nodup.getElem_inj_iff hnd).mp he)

theorem RegInv.nodup (c : FakeClock) (h : RegInv c) : c.reg.Nodup := by
  rw [List.nodup_iff_injective_get]
  rintro ⟨q1, h1⟩ ⟨q2, h2⟩ heq
  have e1 := h.2.1 q1 h1
  have e2 := h.2.1 q2 h2
  rw [List.getD_eq_getElem _ _ h1] at e1
  rw [List.getD_eq_getElem _ _ h2] at e2
  have heq' : c.reg[q1] = c.reg[q2] := heq
  rw [heq'] at e1
  have hqq : (q1 : Int) = (q2 : Int) := by rw [← e1, e2]
  exact Fin.ext (by exact_mod_cast hqq)

theorem RegInv.index_spec (c : FakeClock) (h : RegInv c) (id : Nat) (hm : id ∈ c.reg) :
    0 ≤ (c.getS id).i ∧ (c.getS id).i.toNat < c.reg.length ∧
      c.reg.getD ((c.getS id).i.toNat) 0 = id := by
  obtain ⟨q, hq, hx⟩ := (mem_iff_getD c.reg id).mp hm
  have e := h.2.1 q hq
  rw [hx] at e
  refine ⟨by omega, by rw [e]; simpa using hq, by rw [e]; simpa using hx⟩

theorem removeSleeper_neg (c : FakeClock) (id : Nat) (h : (c.getS id).i < 0) :
    removeSleeper c id = (c, false) := by
  unfold removeSleeper
  rw [if_pos h]

theorem removeSleeper_pos (c : FakeClock) (id : Nat) (h : 0 ≤ (c.getS id).i) :
    removeSleeper c id =
      ({ (c.setS (c.reg.getD (c.reg.length - 1) 0)
            { c.getS (c.reg.getD (c.reg.length - 1) 0) with
                i := ((c.getS id).i.toNat : Int) }).setS id
            { ((c.setS (c.reg.getD (c.reg.length - 1) 0)
                  { c.getS (c.reg.getD (c.reg.length - 1) 0) with
                      i := ((c.getS id).i.toNat : Int) }).getS id) with i := -1 } with
          reg := (c.reg.set (c.getS id).i.toNat (c.reg.getD (c.reg.length - 1) 0)).dropLast },
        true) := by
  unfold removeSleeper
  rw [if_neg (not_lt.mpr h)]
  rfl

end Clock

namespace Clock

theorem removeSleeper_pos_proj (c : FakeClock) (id : Nat) (hpos : 0 ≤ (c.getS id).i) :
    (removeSleeper c id).2 = true ∧
    (removeSleeper c id).1.atT = c.atT ∧
    (removeSleeper c id).1.heap.length = c.heap.length ∧
    (removeSleeper c id).1.blockers = c.blockers ∧
    (removeSleeper c id).1.signalled = c.signalled ∧
    (removeSleeper c id).1.nextBlockerId = c.nextBlockerId := by
  rw [removeSleeper_pos c id hpos]
  refine ⟨rfl, rfl, ?_, rfl, rfl, rfl⟩
  simp

theorem removeSleeper_pos_reg (c : FakeClock) (id : Nat) (hpos : 0 ≤ (c.getS id).i) :
    (removeSleeper c id).1.reg =
      (c.reg.set (c.getS id).i.toNat (c.reg.getD (c.reg.length - 1) 0)).dropLast := by
  rw [removeSleeper_pos c id hpos]

theorem removeSleeper_pos_reg_length (c : FakeClock) (id : Nat) (hpos : 0 ≤ (c.getS id).i) :
    (removeSleeper c id).1.reg.length = c.reg.length - 1 := by
  rw [removeSleeper_pos_reg c id hpos]
  simp

theorem removeSleeper_pos_reg_getD (c : FakeClock) (id : Nat) (hpos : 0 ≤ (c.getS id).i)
    (q : Nat) (hq : q < c.reg.length - 1) :
    (removeSleeper c id).1.reg.getD q 0 =
      if (c.getS id).i.toNat = q then c.reg.getD (c.reg.length - 1) 0
      else c.reg.getD q 0 := by
  rw [removeSleeper_pos_reg c id hpos]
  have hq1 : q < ((c.reg.set (c.getS id).i.toNat (c.reg.getD (c.reg.length - 1) 0)).dropLast).length := by
    simp
    omega
  rw [List.getD_eq_getElem _ _ hq1, List.getElem_dropLast, List.getElem_set]
  by_cases hpq : (c.getS id).i.toNat = q
  · rw [if_pos hpq, if_pos hpq]
  · rw [if_neg hpq, if_neg hpq]
    exact (List.getD_eq_getElem _ _ (by omega)).symm

theorem removeSleeper_pos_getS_id (c : FakeClock) (id : Nat)
    (hid : id < c.heap.length) (hpos : 0 ≤ (c.getS id).i) :
    (removeSleeper c id).1.getS id = { c.getS id with i := -1 } := by
  rw [removeSleeper_pos c id hpos]
  show ((c.setS _ _).setS id _).getS id = _
  rw [getS_setS_self _ _ _ (by simpa using hid)]
  by_cases hc : c.reg.getD (c.reg.length - 1) 0 = id
  · rw [hc, getS_setS_self _ _ _ hid]
  · rw [getS_setS_ne _ _ _ _ (Ne.symm hc)]

theorem removeSleeper_pos_getS_last (c : FakeClock) (id : Nat)
    (hpos : 0 ≤ (c.getS id).i)
    (hlast : c.reg.getD (c.reg.length - 1) 0 < c.heap.length)
    (hne : c.reg.getD (c.reg.length - 1) 0 ≠ id) :
    (removeSleeper c id).1.getS (c.reg.getD (c.reg.length - 1) 0) =
      { c.getS (c.reg.getD (c.reg.length - 1) 0) with i := ((c.getS id).i.toNat : Int) } := by
  rw [removeSleeper_pos c id hpos]
  show ((c.setS _ _).setS id _).getS _ = _
  rw [getS_setS_ne _ _ _ _ hne, getS_setS_self _ _ _ hlast]

theorem removeSleeper_pos_getS_other (c : FakeClock) (id : Nat)
    (hpos : 0 ≤ (c.getS id).i) (idx : Nat) (hne1 : idx ≠ id)
    (hne2 : idx ≠ c.reg.getD (c.reg.length - 1) 0) :
    (removeSleeper c id).1.getS idx = c.getS idx := by
  rw [removeSleeper_pos c id hpos]
  show ((c.setS _ _).setS id _).getS idx = _
  rw [getS_setS_ne _ _ _ _ hne1, getS_setS_ne _ _ _ _ hne2]

end Clock

namespace Clock

theorem removeSleeper_pos_mem (c : FakeClock) (id : Nat) (hinv : RegInv c)
    (hid : id < c.heap.length) (hpos : 0 ≤ (c.getS id).i) (idx : Nat) :
    idx ∈ (removeSleeper c id).1.reg ↔ idx ∈ c.reg ∧ idx ≠ id := by
  have hnd := RegInv.nodup c hinv
  have hmem : id ∈ c.reg := (hinv.2.2 id hid).mpr hpos
  obtain ⟨_, hpn, hgp⟩ := RegInv.index_spec c hinv id hmem
  have hn0 : 0 < c.reg.length := List.length_pos_of_mem hmem
  have hlastid : (c.getS (c.reg.getD (c.reg.length - 1) 0)).i = ((c.reg.length - 1 : Nat) : Int) :=
    hinv.2.1 (c.reg.length - 1) (by omega)
  have hple : (c.getS id).i.toNat = c.reg.length - 1 ↔ id = c.reg.getD (c.reg.length - 1) 0 := by
    constructor
    · intro h
      rw [← hgp, h]
    · intro h
      have h2 : (c.getS id).i = ((c.reg.length - 1 : Nat) : Int) := by rw [h, hlastid]
      rw [h2]
      simp
  rw [mem_iff_getD, removeSleeper_pos_reg_length c id hpos]
  constructor
  · rintro ⟨q, hq, hval⟩
    rw [removeSleeper_pos_reg_getD c id hpos q hq] at hval
    by_cases hpq : (c.getS id).i.toNat = q
    · rw [if_pos hpq] at hval
      refine ⟨(mem_iff_getD _ _).mpr ⟨c.reg.length - 1, by omega, hval⟩, ?_⟩
      intro hcon
      have : id = c.reg.getD (c.reg.length - 1) 0 := by rw [← hcon, ← hval]
      have hpeq : (c.getS id).i.toNat = c.reg.length - 1 := hple.mpr this
      omega
    · rw [if_neg hpq] at hval
      refine ⟨(mem_iff_getD _ _).mpr ⟨q, by omega, hval⟩, ?_⟩
      intro hcon
      apply nodup_getD_ne c.reg hnd q ((c.getS id).i.toNat) (by omega) hpn
        (fun h => hpq h.symm)
      rw [hval, hgp, hcon]
  · rintro ⟨hm', hne'⟩
    obtain ⟨q0, hq0, hval0⟩ := (mem_iff_getD _ _).mp hm'
    have hq0p : q0 ≠ (c.getS id).i.toNat := by
      intro h
      rw [h, hgp] at hval0
      exact hne' hval0.symm
    by_cases hq0last : q0 = c.reg.length - 1
    · have hlv : idx = c.reg.getD (c.reg.length - 1) 0 := by rw [← hval0, hq0last]
      have hplast : (c.getS id).i.toNat ≠ c.reg.length - 1 := by
        intro h
        exact hne' (by rw [hlv, ← hple.mp h])
      refine ⟨(c.getS id).i.toNat, by omega, ?_⟩
      rw [removeSleeper_pos_reg_getD c id hpos _ (by omega), if_pos rfl, ← hlv]
    · refine ⟨q0, by omega, ?_⟩
      rw [removeSleeper_pos_reg_getD c id hpos q0 (by omega),
        if_neg (fun h => hq0p h.symm)]
      exact hval0

theorem removeSleeper_pos_RegInv (c : FakeClock) (id : Nat) (hinv : RegInv c)
    (hid : id < c.heap.length) (hpos : 0 ≤ (c.getS id).i) :
    RegInv (removeSleeper c id).1 := by
  have hnd := RegInv.nodup c hinv
  have hmem : id ∈ c.reg := (hinv.2.2 id hid).mpr hpos
  obtain ⟨_, hpn, hgp⟩ := RegInv.index_spec c hinv id hmem
  have hn0 : 0 < c.reg.length := List.length_pos_of_mem hmem
  have hlastmem : c.reg.getD (c.reg.length - 1) 0 ∈ c.reg :=
    (mem_iff_getD _ _).mpr ⟨c.reg.length - 1, by omega, rfl⟩
  have hlastlt : c.reg.getD (c.reg.length - 1) 0 < c.heap.length := hinv.1 _ hlastmem
  have hlastid : (c.getS (c.reg.getD (c.reg.length - 1) 0)).i = ((c.reg.length - 1 : Nat) : Int) :=
    hinv.2.1 (c.reg.length - 1) (by omega)
  have hple : (c.getS id).i.toNat = c.reg.length - 1 ↔ id = c.reg.getD (c.reg.length - 1) 0 := by
    constructor
    · intro h
      rw [← hgp, h]
    · intro h
      have h2 : (c.getS id).i = ((c.reg.length - 1 : Nat) : Int) := by rw [h, hlastid]
      rw [h2]
      simp
  have hhl := (removeSleeper_pos_proj c id hpos).2.2.1
  refine ⟨?_, ?_, ?_⟩
  · intro x hx
    rw [hhl]
    have := (removeSleeper_pos_mem c id hinv hid hpos x).mp hx
    exact hinv.1 x this.1
  · intro q hq
    rw [removeSleeper_pos_reg_length c id hpos] at hq
    rw [removeSleeper_pos_reg_getD c id hpos q hq]
    by_cases hpq : (c.getS id).i.toNat = q
    · rw [if_pos hpq]
      have hne : c.reg.getD (c.reg.length - 1) 0 ≠ id := by
        intro h
        have : (c.getS id).i.toNat = c.reg.length - 1 := hple.mpr h.symm
        omega
      rw [removeSleeper_pos_getS_last c id hpos hlastlt hne]
      show ((c.getS id).i.toNat : Int) = (q : Int)
      exact_mod_cast hpq
    · rw [if_neg hpq]
      have hvne_id : c.reg.getD q 0 ≠ id := by
        intro h
        apply nodup_getD_ne c.reg hnd q ((c.getS id).i.toNat) (by omega) hpn
          (fun hh => hpq hh.symm)
        rw [h, hgp]
      have hvne_last : c.reg.getD q 0 ≠ c.reg.getD (c.reg.length - 1) 0 :=
        nodup_getD_ne c.reg hnd q (c.reg.length - 1) (by omega) (by omega) (by omega)
      rw [removeSleeper_pos_getS_other c id hpos _ hvne_id hvne_last]
      exact hinv.2.1 q (by omega)
  · intro idx hidx
    rw [hhl] at hidx
    rw [removeSleeper_pos_mem c id hinv hid hpos idx]
    by_cases h1 : idx = id
    · subst h1
      rw [removeSleeper_pos_getS_id c idx hid hpos]
      simp
    · by_cases h2 : idx = c.reg.getD (c.reg.length - 1) 0
      · subst h2
        rw [removeSleeper_pos_getS_last c id hpos hlastlt (fun h => h1 (by rw [h]))]
        constructor
        · intro _
          show 0 ≤ ((c.getS id).i.toNat : Int)
          omega
        · intro _
          exact ⟨hlastmem, fun h => h1 (by rw [h])⟩
      · rw [removeSleeper_pos_getS_other c id hpos _ h1 h2]
        rw [hinv.2.2 idx hidx]
        constructor
        · rintro ⟨hm, _⟩
          exact hm
        · intro hm
          exact ⟨hm, h1⟩

end Clock

namespace Clock

theorem removeSleeper_snd (c : FakeClock) (id : Nat) (hinv : RegInv c)
    (hid : id < c.heap.length) :
    (removeSleeper c id).2 = decide (id ∈ c.reg) := by
  by_cases hpos : 0 ≤ (c.getS id).i
  · rw [(removeSleeper_pos_proj c id hpos).1]
    have : id ∈ c.reg := (hinv.2.2 id hid).mpr hpos
    simp [this]
  · rw [removeSleeper_neg c id (by omega)]
    have : id ∉ c.reg := fun hm => hpos ((hinv.2.2 id hid).mp hm)
    simp [this]

theorem removeSleeper_not_mem_self (c : FakeClock) (id : Nat) (hinv : RegInv c)
    (hid : id < c.heap.length) :
    id ∉ (removeSleeper c id).1.reg := by
  by_cases hpos : 0 ≤ (c.getS id).i
  · rw [removeSleeper_pos_mem c id hinv hid hpos id]
    simp
  · rw [removeSleeper_neg c id (by omega)]
    exact fun hm => hpos ((hinv.2.2 id hid).mp hm)

theorem removeSleeper_getS_self (c : FakeClock) (id : Nat) (hid : id < c.heap.length) :
    ((removeSleeper c id).1.getS id).data = (c.getS id).data ∧
      ((removeSleeper c id).1.getS id).i < 0 ∨
    (removeSleeper c id).1 = c ∧ (c.getS id).i < 0 := by
  by_cases hpos : 0 ≤ (c.getS id).i
  · left
    rw [removeSleeper_pos_getS_id c id hid hpos]
    exact ⟨rfl, by show (-1 : Int) < 0; decide⟩
  · right
    rw [removeSleeper_neg c id (by omega)]
    exact ⟨rfl, by omega⟩

theorem data_fields (s s' : Sleeper) (h : s.data = s'.data) :
    s.untilT = s'.untilT ∧ s.woke = s'.woke ∧ s.hasC = s'.hasC ∧ s.sent = s'.sent ∧
      s.hasF = s'.hasF ∧ s.calls = s'.calls := by
  simp only [Sleeper.data, Prod.mk.injEq] at h
  exact h

theorem RegInv_setS_data (c : FakeClock) (id : Nat) (s : Sleeper) (hinv : RegInv c)
    (hid : id < c.heap.length) (hi : s.i = (c.getS id).i) : RegInv (c.setS id s) := by
  refine ⟨?_, ?_, ?_⟩
  · intro x hx
    rw [setS_heap_length]
    exact hinv.1 x hx
  · intro p hp
    rw [setS_reg] at hp
    show ((c.setS id s).getS ((c.setS id s).reg.getD p 0)).i = (p : Int)
    rw [setS_reg]
    by_cases hc : c.reg.getD p 0 = id
    · rw [hc, getS_setS_self _ _ _ hid, hi, ← hc]
      exact hinv.2.1 p hp
    · rw [getS_setS_ne _ _ _ _ hc]
      exact hinv.2.1 p hp
  · intro x hx
    rw [setS_heap_length] at hx
    rw [setS_reg]
    by_cases hc : x = id
    · subst hc
      rw [getS_setS_self _ _ _ hid, hi]
      exact hinv.2.2 x hx
    · rw [getS_setS_ne _ _ _ _ hc]
      exact hinv.2.2 x hx

/-! ### Claim C5 -/

/-- Counterexample input for C5: a timer created at instant 1 with duration
2 whose channel was never requested, so its sleeper was never registered. -/
def stopNeverC : FakeClock × Timer := NewTimer (NewFakeClockAt 1) 2

/-- C5 as stated is false: `Stop()` on a timer whose sleeper was never
pending (the registry is empty — the channel was never requested) still
returns `true`, because the fallback returns whether the deadline is still
in the future.  This matches the test `TestNewTimer_Stop_NeverCalledC`. -/
theorem timer_stop_counterexample :
    (Timer.Stop stopNeverC.2 stopNeverC.1).2.2 = true ∧ stopNeverC.1.reg = [] := by
  decide

theorem timerStop_of_stopped (t : Timer) (c : FakeClock) (h : t.stopped = true) :
    Timer.Stop t c = (c, { t with stopped := true }, false) := by
  unfold Timer.Stop
  rw [if_pos h]

theorem timerStop_of_not_stopped (t : Timer) (c : FakeClock) (h : t.stopped = false) :
    Timer.Stop t c =
      (if (removeSleeper c t.sid).2 = true
        then ((removeSleeper c t.sid).1, { t with stopped := true }, true)
        else ((removeSleeper c t.sid).1, { t with stopped := true },
          decide ((removeSleeper c t.sid).1.atT <
            ((removeSleeper c t.sid).1.getS t.sid).untilT))) := by
  unfold Timer.Stop
  rw [if_neg (by simp [h])]

/-- C5 (amended): on a well-formed clock, the first `Stop()` returns `true`
iff the timer's deadline is strictly after the current instant — it was
pending, or it was never registered and has not yet expired; `Stop()` on an
already-fired or expired timer returns `false`; and every second and later
call to `Stop()` returns `false` regardless of the first result. -/
theorem timer_stop_claim (t : Timer) (c : FakeClock) (hwf : WF c)
    (hsid : t.sid < c.heap.length) :
    (t.stopped = false →
      (Timer.Stop t c).2.2 = decide (c.atT < (c.getS t.sid).untilT)) ∧
    (t.stopped = true → (Timer.Stop t c).2.2 = false) ∧
    (Timer.Stop t c).2.1.stopped = true ∧
    (Timer.Stop (Timer.Stop t c).2.1 (Timer.Stop t c).1).2.2 = false := by
  have hstop1 : (Timer.Stop t c).2.1.stopped = true := by
    unfold Timer.Stop
    by_cases h : t.stopped
    · rw [if_pos h]
    · rw [if_neg h]
      by_cases h2 : (removeSleeper c t.sid).2 <;> simp [h2]
  refine ⟨?_, ?_, hstop1, ?_⟩
  · intro h
    rw [timerStop_of_not_stopped t c h]
    by_cases hpos : 0 ≤ (c.getS t.sid).i
    · have hmem : t.sid ∈ c.reg := (hwf.1.2.2 t.sid hsid).mpr hpos
      have hfut : c.atT < (c.getS t.sid).untilT := (hwf.2 t.sid hmem).2
      have hsnd : (removeSleeper c t.sid).2 = true := (removeSleeper_pos_proj c t.sid hpos).1
      rw [if_pos hsnd]
      simp [hfut]
    · have hr := removeSleeper_neg c t.sid (by omega)
      rw [hr]
      simp
  · intro h
    rw [timerStop_of_stopped t c h]
  · rw [timerStop_of_stopped _ _ hstop1]

/-- Witness for C5 (amended) at the never-registered timer: the first stop
returns `true` because the deadline (3) is after the instant (1), the
second returns `false`. -/
theorem timer_stop_claim_witness :
    (WF stopNeverC.1 ∧ stopNeverC.2.sid < stopNeverC.1.heap.length) ∧
    ((stopNeverC.2.stopped = false →
      (Timer.Stop stopNeverC.2 stopNeverC.1).2.2 =
        decide (stopNeverC.1.atT < (stopNeverC.1.getS stopNeverC.2.sid).untilT)) ∧
    (stopNeverC.2.stopped = true → (Timer.Stop stopNeverC.2 stopNeverC.1).2.2 = false) ∧
    (Timer.Stop stopNeverC.2 stopNeverC.1).2.1.stopped = true ∧
    (Timer.Stop (Timer.Stop stopNeverC.2 stopNeverC.1).2.1
        (Timer.Stop stopNeverC.2 stopNeverC.1).1).2.2 = false) :=
  ⟨⟨by decide, by decide⟩, timer_stop_claim stopNeverC.2 stopNeverC.1 (by decide) (by decide)⟩

end Clock

namespace Clock

theorem removeSleeper_heap_length (c : FakeClock) (id : Nat) :
    (removeSleeper c id).1.heap.length = c.heap.length := by
  by_cases hpos : 0 ≤ (c.getS id).i
  · exact (removeSleeper_pos_proj c id hpos).2.2.1
  · rw [removeSleeper_neg c id (by omega)]

theorem removeSleeper_atT (c : FakeClock) (id : Nat) :
    (removeSleeper c id).1.atT = c.atT := by
  by_cases hpos : 0 ≤ (c.getS id).i
  · exact (removeSleeper_pos_proj c id hpos).2.1
  · rw [removeSleeper_neg c id (by omega)]

/-! ### Claim C6 -/

/-- The C6 statement: `Reset(d)` clamps negative `d` to zero, re-arms the
timer's sleeper for the new duration measured from the current instant
(fresh channel, woken flag cleared), detaches it from any prior pending
registration, returns `true` iff that prior registration was still pending,
and re-registers immediately only when the timer is callback-style (in
which case a clamped-to-zero duration fires the callback at once). -/
abbrev TimerResetClaim (t : Timer) (c : FakeClock) (d : Int) : Prop :=
  (Timer.Reset t c d).2 = decide (t.sid ∈ c.reg) ∧
  ((c.getS t.sid).hasF = false →
    ((Timer.Reset t c d).1.getS t.sid).untilT = c.atT + (if d < 0 then 0 else d) ∧
    ((Timer.Reset t c d).1.getS t.sid).woke = false ∧
    ((Timer.Reset t c d).1.getS t.sid).sent = [] ∧
    t.sid ∉ (Timer.Reset t c d).1.reg) ∧
  ((c.getS t.sid).hasF = true →
    (0 < d →
      t.sid ∈ (Timer.Reset t c d).1.reg ∧
      ((Timer.Reset t c d).1.getS t.sid).untilT = c.atT + d ∧
      ((Timer.Reset t c d).1.getS t.sid).woke = false) ∧
    (d ≤ 0 →
      ((Timer.Reset t c d).1.getS t.sid).woke = true ∧
      ((Timer.Reset t c d).1.getS t.sid).calls = (c.getS t.sid).calls + 1 ∧
      t.sid ∉ (Timer.Reset t c d).1.reg))

/-- C6: `Reset` clamps, re-arms from the current instant, detaches the
prior registration and reports whether it was still pending, and
immediately re-registers only for callback-style timers. -/
theorem timer_reset_claim (t : Timer) (c : FakeClock) (d : Int)
    (hinv : RegInv c) (hsid : t.sid < c.heap.length) : TimerResetClaim t c d := by
  have hred : Timer.Reset t c d =
      (if ((removeSleeper (c.setS t.sid
              { c.getS t.sid with
                  untilT := c.atT + (if d < 0 then 0 else d), woke := false,
                  sent := [] }) t.sid).1.getS t.sid).hasF = true
        then appendSleeper (removeSleeper (c.setS t.sid
              { c.getS t.sid with
                  untilT := c.atT + (if d < 0 then 0 else d), woke := false,
                  sent := [] }) t.sid).1 t.sid
        else (removeSleeper (c.setS t.sid
              { c.getS t.sid with
                  untilT := c.atT + (if d < 0 then 0 else d), woke := false,
                  sent := [] }) t.sid).1,
       (removeSleeper (c.setS t.sid
              { c.getS t.sid with
                  untilT := c.atT + (if d < 0 then 0 else d), woke := false,
                  sent := [] }) t.sid).2) := rfl
  set s1 : Sleeper :=
    { c.getS t.sid with
        untilT := c.atT + (if d < 0 then 0 else d), woke := false, sent := [] } with hs1
  set c1 : FakeClock := c.setS t.sid s1 with hc1
  have hc1get : c1.getS t.sid = s1 := getS_setS_self _ _ _ hsid
  have hsid1 : t.sid < c1.heap.length := by
    rw [hc1, setS_heap_length]
    exact hsid
  have hinv1 : RegInv c1 := RegInv_setS_data c t.sid s1 hinv hsid rfl
  have hsnd : (removeSleeper c1 t.sid).2 = decide (t.sid ∈ c.reg) := by
    rw [removeSleeper_snd c1 t.sid hinv1 hsid1, hc1, setS_reg]
  have hdata : ((removeSleeper c1 t.sid).1.getS t.sid).data = s1.data ∧
      ((removeSleeper c1 t.sid).1.getS t.sid).i < 0 := by
    rcases removeSleeper_getS_self c1 t.sid hsid1 with h | h
    · rw [hc1get] at h
      exact h
    · rw [h.1, hc1get]
      refine ⟨rfl, ?_⟩
      rw [hc1get] at h
      exact h.2
  obtain ⟨hu, hwo, hhc, hse, hhf, hca⟩ := data_fields _ _ hdata.1
  have hnm : t.sid ∉ (removeSleeper c1 t.sid).1.reg :=
    removeSleeper_not_mem_self c1 t.sid hinv1 hsid1
  have hplen : t.sid < (removeSleeper c1 t.sid).1.heap.length := by
    rw [removeSleeper_heap_length]
    exact hsid1
  have hatT : (removeSleeper c1 t.sid).1.atT = c.atT := by
    rw [removeSleeper_atT, hc1, setS_atT]
  refine ⟨?_, ?_, ?_⟩
  · rw [hred]
    exact hsnd
  · intro hF
    have hF1 : ((removeSleeper c1 t.sid).1.getS t.sid).hasF = false := by
      rw [hhf, hs1]
      exact hF
    rw [hred, if_neg (by simp [hF1])]
    exact ⟨hu, hwo, hse, hnm⟩
  · intro hF
    have hF1 : ((removeSleeper c1 t.sid).1.getS t.sid).hasF = true := by
      rw [hhf, hs1]
      exact hF
    rw [hred, if_pos hF1]
    constructor
    · intro hdpos
      have hfut : (removeSleeper c1 t.sid).1.atT <
          ((removeSleeper c1 t.sid).1.getS t.sid).untilT := by
        rw [hatT, hu]
        show c.atT < s1.untilT
        rw [hs1]
        show c.atT < c.atT + (if d < 0 then 0 else d)
        rw [if_neg (by omega)]
        omega
      refine ⟨?_, ?_, ?_⟩
      · rw [appendSleeper_reg_future _ _ hfut]
        simp
      · rw [appendSleeper_getS_self_future _ _ hfut hplen]
        show ((removeSleeper c1 t.sid).1.getS t.sid).untilT = c.atT + d
        rw [hu]
        show s1.untilT = c.atT + d
        rw [hs1]
        show c.atT + (if d < 0 then 0 else d) = c.atT + d
        rw [if_neg (by omega)]
      · rw [appendSleeper_getS_self_future _ _ hfut hplen]
        show ((removeSleeper c1 t.sid).1.getS t.sid).woke = false
        rw [hwo]
    · intro hdneg
      have hdue : ((removeSleeper c1 t.sid).1.getS t.sid).untilT ≤
          (removeSleeper c1 t.sid).1.atT := by
        rw [hatT, hu]
        show s1.untilT ≤ c.atT
        rw [hs1]
        show c.atT + (if d < 0 then 0 else d) ≤ c.atT
        by_cases hneg : d < 0
        · rw [if_pos hneg]
          omega
        · rw [if_neg hneg]
          omega
      have hwake := wake_of_not_woke
        { (removeSleeper c1 t.sid).1.getS t.sid with i := -1 } (by simpa using hwo)
      refine ⟨?_, ?_, ?_⟩
      · rw [appendSleeper_getS_self_due _ _ hdue hplen, hwake]
      · rw [appendSleeper_getS_self_due _ _ hdue hplen, hwake]
        show ((removeSleeper c1 t.sid).1.getS t.sid).calls +
            (if ({ (removeSleeper c1 t.sid).1.getS t.sid with i := -1 : Sleeper}).hasF
              then 1 else 0) = (c.getS t.sid).calls + 1
        have : ({ (removeSleeper c1 t.sid).1.getS t.sid with i := -1 : Sleeper}).hasF = true :=
          hF1
        rw [this, if_pos rfl, hca]
      · rw [appendSleeper_reg_due _ _ hdue]
        exact hnm

/-- Witness for C6: a callback timer created by `AfterFunc` at instant 1
with duration 5, reset to duration 2. -/
theorem timer_reset_claim_witness :
    (RegInv (AfterFunc (NewFakeClockAt 1) 5).1 ∧
      (AfterFunc (NewFakeClockAt 1) 5).2.sid < (AfterFunc (NewFakeClockAt 1) 5).1.heap.length) ∧
    TimerResetClaim (AfterFunc (NewFakeClockAt 1) 5).2 (AfterFunc (NewFakeClockAt 1) 5).1 2 :=
  ⟨⟨by decide, by decide⟩,
    timer_reset_claim (AfterFunc (NewFakeClockAt 1) 5).2 (AfterFunc (NewFakeClockAt 1) 5).1 2
      (by decide) (by decide)⟩

end Clock

namespace Clock

/-! ### Claims C3 and C4 -/

/-- Fallback used to strip the `Option` from `NewTicker` on known-positive
intervals. -/
def noTicker : FakeClock × Ticker := (NewFakeClockAt 0, Ticker.mk 0 0 false 0)

/-- `NewTicker` on a positive interval, with the `Option` stripped. -/
def tickerOf (c : FakeClock) (d : Int) : FakeClock × Ticker := (NewTicker c d).getD noTicker

/-- Run for C3: a ticker with interval 1 on a clock at instant 1. -/
def tkRun0 : FakeClock × Ticker := tickerOf (NewFakeClockAt 1) 1

/-- Run for C3: the first channel request (registers sleeper 1, deadline 2). -/
def tkRun1 : FakeClock × Ticker × Option Nat := Ticker.chanC tkRun0.2 tkRun0.1

/-- Run for C3: the second channel request (registers sleeper 2, deadline 3). -/
def tkRun2 : FakeClock × Ticker × Option Nat := Ticker.chanC tkRun1.2.1 tkRun1.1

/-- C3 as stated is false: after two consecutive channel requests the first
request's registration (sleeper 1) is still pending — `C()` never removes
the previous registration — and advancing past both deadlines delivers a
tick on BOTH channels (sleeper 1 receives instant 2, sleeper 2 receives
instant 3), not on the second request's channel only. -/
theorem ticker_chanC_counterexample :
    tkRun2.1.reg = [1, 2] ∧
    ((Advance tkRun2.1 3).getS 1).sent = [2] ∧
    ((Advance tkRun2.1 3).getS 2).sent = [3] := by
  decide

/-- The C3 statement as amended: each channel request on a running ticker
allocates a fresh sleeper at `next`, registers it *in addition to* any
previous registration (which stays pending and will still fire into its
abandoned channel), replaces only the ticker's tracked-sleeper reference,
and advances `next` by the interval; the caller retaining only the latest
channel therefore observes only the latest deadline's tick. -/
abbrev TickerChanCClaim (tk : Ticker) (c : FakeClock) : Prop :=
  (Ticker.chanC tk c).2.2 = some c.heap.length ∧
  (Ticker.chanC tk c).2.1.sid = c.heap.length ∧
  (Ticker.chanC tk c).2.1.next = tk.next + tk.interval ∧
  (Ticker.chanC tk c).1.reg = c.reg ++ [c.heap.length] ∧
  ((Ticker.chanC tk c).1.getS c.heap.length).untilT = tk.next ∧
  (∀ id, id < c.heap.length → (Ticker.chanC tk c).1.getS id = c.getS id)

theorem tickerChanC_not_stopped (tk : Ticker) (c : FakeClock) (h : tk.stopped = false) :
    Ticker.chanC tk c =
      (appendSleeper (c.alloc (Sleeper.mk 0 tk.next false true [] false 0)).1
          (c.alloc (Sleeper.mk 0 tk.next false true [] false 0)).2,
        { tk with
            sid := (c.alloc (Sleeper.mk 0 tk.next false true [] false 0)).2,
            next := tk.next + tk.interval },
        some (c.alloc (Sleeper.mk 0 tk.next false true [] false 0)).2) := by
  unfold Ticker.chanC
  rw [if_neg (by simp [h])]

/-- C3 (amended): a channel request replaces only the *tracked* sleeper and
advances `next`; the prior registration remains in the registry untouched. -/
theorem ticker_chanC_claim (tk : Ticker) (c : FakeClock)
    (hstop : tk.stopped = false) (hfut : c.atT < tk.next) : TickerChanCClaim tk c := by
  rw [TickerChanCClaim, tickerChanC_not_stopped tk c hstop]
  have hget : (c.alloc (Sleeper.mk 0 tk.next false true [] false 0)).1.getS
      (c.alloc (Sleeper.mk 0 tk.next false true [] false 0)).2 =
      Sleeper.mk 0 tk.next false true [] false 0 := getS_alloc_new c _
  have hfut1 : (c.alloc (Sleeper.mk 0 tk.next false true [] false 0)).1.atT <
      ((c.alloc (Sleeper.mk 0 tk.next false true [] false 0)).1.getS
        (c.alloc (Sleeper.mk 0 tk.next false true [] false 0)).2).untilT := by
    rw [hget, alloc_atT]
    exact hfut
  have hlen : (c.alloc (Sleeper.mk 0 tk.next false true [] false 0)).2 <
      (c.alloc (Sleeper.mk 0 tk.next false true [] false 0)).1.heap.length := by simp
  refine ⟨rfl, rfl, rfl, ?_, ?_, ?_⟩
  · rw [appendSleeper_reg_future _ _ hfut1, alloc_reg]
    rfl
  · show ((appendSleeper (c.alloc (Sleeper.mk 0 tk.next false true [] false 0)).1
        (c.alloc (Sleeper.mk 0 tk.next false true [] false 0)).2).getS
        (c.alloc (Sleeper.mk 0 tk.next false true [] false 0)).2).untilT = tk.next
    rw [appendSleeper_getS_self_future _ _ hfut1 hlen, hget]
  · intro id hid
    show (appendSleeper (c.alloc (Sleeper.mk 0 tk.next false true [] false 0)).1
        (c.alloc (Sleeper.mk 0 tk.next false true [] false 0)).2).getS id = c.getS id
    rw [appendSleeper_getS_ne _ _ _ (by simp; omega)]
    exact getS_alloc_old c _ id hid

/-- Witness for C3 (amended) at the C3 run's first channel request. -/
theorem ticker_chanC_claim_witness :
    (tkRun0.2.stopped = false ∧ tkRun0.1.atT < tkRun0.2.next) ∧
    TickerChanCClaim tkRun0.2 tkRun0.1 :=
  ⟨⟨by decide, by decide⟩, ticker_chanC_claim tkRun0.2 tkRun0.1 (by decide) (by decide)⟩

/-- Run for C4: a ticker with interval 10 on a clock at instant 1
(`next = 11`), the clock advanced by 5 (instant 6), then `Reset(2)`. -/
def resetRun0 : FakeClock × Ticker := tickerOf (NewFakeClockAt 1) 10

/-- Run for C4: the clock advanced to instant 6. -/
def resetRun1 : FakeClock := Advance resetRun0.1 5

/-- Run for C4: `Reset(2)` at instant 6. -/
def resetRun2 : FakeClock × Ticker := Ticker.tReset resetRun0.2 resetRun1 2

/-- C4 is a code bug: `Reset` clears the stopped flag and adopts the new
interval, but writes `now + d` (8) into the *detached tracked sleeper's*
deadline field — a dead store — instead of recomputing `next`, which stays
at its stale value 11; the channel obtained from the next `C()` call is
therefore registered with deadline 11, not 8 = instant-of-reset + new
interval as the spec states. -/
theorem ticker_reset_bug :
    resetRun2.2.stopped = false ∧
    resetRun2.2.interval = 2 ∧
    resetRun1.atT = 6 ∧
    resetRun2.2.next = 11 ∧
    (resetRun2.1.getS 0).untilT = 8 ∧
    (Ticker.chanC resetRun2.2 resetRun2.1).2.2 = some 1 ∧
    ((Ticker.chanC resetRun2.2 resetRun2.1).1.getS 1).untilT = 11 := by
  decide

end Clock

namespace Clock

/-! ### Claim C7 -/

theorem removeSleeper_blockers (c : FakeClock) (id : Nat) :
    (removeSleeper c id).1.blockers = c.blockers ∧
    (removeSleeper c id).1.signalled = c.signalled := by
  by_cases hpos : 0 ≤ (c.getS id).i
  · exact ⟨(removeSleeper_pos_proj c id hpos).2.2.2.1,
      (removeSleeper_pos_proj c id hpos).2.2.2.2.1⟩
  · rw [removeSleeper_neg c id (by omega)]
    exact ⟨rfl, rfl⟩

theorem removeSleeper_reg_length_le (c : FakeClock) (id : Nat) :
    (removeSleeper c id).1.reg.length ≤ c.reg.length := by
  by_cases hpos : 0 ≤ (c.getS id).i
  · rw [removeSleeper_pos_reg_length c id hpos]
    omega
  · rw [removeSleeper_neg c id (by omega)]

/-- The C7 statement for `Until` itself: with at least `n` sleepers pending
the fresh blocker is signalled immediately and nothing is stored; with
fewer, nothing is signalled and the blocker is stored at the end of the
list. -/
abbrev UntilClaim (c : FakeClock) (n : Nat) : Prop :=
  (n ≤ c.reg.length →
    (Until c n).1.signalled = c.signalled ++ [c.nextBlockerId] ∧
    (Until c n).1.blockers = c.blockers) ∧
  (c.reg.length < n →
    (Until c n).1.signalled = c.signalled ∧
    (Until c n).1.blockers = c.blockers ++ [Blocker.mk c.nextBlockerId n])

/-- The invariant that every stored blocker's threshold strictly exceeds
the current number of pending sleepers: a blocker that reaches its
threshold is signalled at once and removed, so only unsatisfied blockers
are ever stored. -/
abbrev BlockerInv (c : FakeClock) : Prop :=
  ∀ b ∈ c.blockers, c.reg.length < b.n

/-- C7: `Until n` completes immediately (the blocker id is appended to the
signal log at once) when at least `n` sleepers are pending, and otherwise
stores the blocker; under the stored-blocker invariant, a registration
signals exactly the blockers whose threshold is exactly reached — never
before, and at most once since they are removed from the list — a
synchronous (catch-up) registration changes no blocker state, and a
removal never signals and preserves the invariant. -/
theorem until_claim (c : FakeClock) (n : Nat) (id : Nat) (hbi : BlockerInv c) :
    UntilClaim c n ∧
    BlockerInv (Until c n).1 ∧
    (c.atT < (c.getS id).untilT →
      (appendSleeper c id).signalled =
        c.signalled ++ (c.blockers.filter (fun b => b.n = c.reg.length + 1)).map Blocker.id ∧
      (appendSleeper c id).blockers = c.blockers.filter (fun b => c.reg.length + 1 < b.n) ∧
      BlockerInv (appendSleeper c id)) ∧
    ((c.getS id).untilT ≤ c.atT →
      (appendSleeper c id).signalled = c.signalled ∧
      (appendSleeper c id).blockers = c.blockers) ∧
    (removeSleeper c id).1.signalled = c.signalled ∧
    (removeSleeper c id).1.blockers = c.blockers ∧
    BlockerInv (removeSleeper c id).1 := by
  refine ⟨⟨?_, ?_⟩, ?_, ?_, ?_, (removeSleeper_blockers c id).2,
    (removeSleeper_blockers c id).1, ?_⟩
  · intro h
    unfold Until
    rw [if_pos h]
    exact ⟨rfl, rfl⟩
  · intro h
    unfold Until
    rw [if_neg (by omega)]
    exact ⟨rfl, rfl⟩
  · unfold Until
    by_cases h : n ≤ c.reg.length
    · rw [if_pos h]
      intro b hb
      exact hbi b hb
    · rw [if_neg h]
      intro b hb
      rcases List.mem_append.mp hb with hb1 | hb1
      · exact hbi b hb1
      · have : b = Blocker.mk c.nextBlockerId n := by simpa using hb1
        rw [this]
        show c.reg.length < n
        omega
  · intro hfut
    have hsig := appendSleeper_signalled_future c id hfut
    have hblk := appendSleeper_blockers_future c id hfut
    have hreg := appendSleeper_reg_future c id hfut
    refine ⟨?_, hblk, ?_⟩
    · rw [hsig]
      congr 1
      congr 1
      apply List.filter_congr
      intro b hb
      have := hbi b hb
      simp only [decide_eq_decide]
      omega
    · intro b hb
      rw [hblk] at hb
      have := List.of_mem_filter hb
      have hlen : (appendSleeper c id).reg.length = c.reg.length + 1 := by
        rw [hreg]
        simp
      rw [hlen]
      simpa using this
  · intro hdue
    exact ⟨appendSleeper_signalled_due c id hdue, appendSleeper_blockers_due c id hdue⟩
  · intro b hb
    rw [(removeSleeper_blockers c id).1] at hb
    have h1 := hbi b hb
    have h2 := removeSleeper_reg_length_le c id
    omega

/-- Witness for C7 on a clock holding one pending sleeper and one stored
blocker with threshold 2, offered `Until 2` and sleeper 0. -/
theorem until_claim_witness :
    BlockerInv (Until (After (NewFakeClockAt 1) 1).1 2).1 ∧
    (UntilClaim (Until (After (NewFakeClockAt 1) 1).1 2).1 2 ∧
      BlockerInv (Until (Until (After (NewFakeClockAt 1) 1).1 2).1 2).1 ∧
      ((Until (After (NewFakeClockAt 1) 1).1 2).1.atT <
          ((Until (After (NewFakeClockAt 1) 1).1 2).1.getS 0).untilT →
        (appendSleeper (Until (After (NewFakeClockAt 1) 1).1 2).1 0).signalled =
          (Until (After (NewFakeClockAt 1) 1).1 2).1.signalled ++
            ((Until (After (NewFakeClockAt 1) 1).1 2).1.blockers.filter
              (fun b => b.n = (Until (After (NewFakeClockAt 1) 1).1 2).1.reg.length + 1)).map
              Blocker.id ∧
        (appendSleeper (Until (After (NewFakeClockAt 1) 1).1 2).1 0).blockers =
          (Until (After (NewFakeClockAt 1) 1).1 2).1.blockers.filter
            (fun b => (Until (After (NewFakeClockAt 1) 1).1 2).1.reg.length + 1 < b.n) ∧
        BlockerInv (appendSleeper (Until (After (NewFakeClockAt 1) 1).1 2).1 0)) ∧
      (((Until (After (NewFakeClockAt 1) 1).1 2).1.getS 0).untilT ≤
          (Until (After (NewFakeClockAt 1) 1).1 2).1.atT →
        (appendSleeper (Until (After (NewFakeClockAt 1) 1).1 2).1 0).signalled =
          (Until (After (NewFakeClockAt 1) 1).1 2).1.signalled ∧
        (appendSleeper (Until (After (NewFakeClockAt 1) 1).1 2).1 0).blockers =
          (Until (After (NewFakeClockAt 1) 1).1 2).1.blockers) ∧
      (removeSleeper (Until (After (NewFakeClockAt 1) 1).1 2).1 0).1.signalled =
        (Until (After (NewFakeClockAt 1) 1).1 2).1.signalled ∧
      (removeSleeper (Until (After (NewFakeClockAt 1) 1).1 2).1 0).1.blockers =
        (Until (After (NewFakeClockAt 1) 1).1 2).1.blockers ∧
      BlockerInv (removeSleeper (Until (After (NewFakeClockAt 1) 1).1 2).1 0).1) :=
  ⟨by decide, until_claim (Until (After (NewFakeClockAt 1) 1).1 2).1 2 0 (by decide)⟩

end Clock

namespace Clock

/-! ### Invariant preservation for the remaining operations -/

theorem wake_i (s : Sleeper) : s.wake.i = s.i := by
  unfold Sleeper.wake
  by_cases h : s.woke
  · simp [h]
  · by_cases hc : s.hasC <;> by_cases hf : s.hasF <;> simp [h, hc, hf]

theorem RegInv_alloc (c : FakeClock) (s : Sleeper) (hinv : RegInv c) (hi : s.i < 0) :
    RegInv (c.alloc s).1 := by
  refine ⟨?_, ?_, ?_⟩
  · intro x hx
    rw [alloc_reg] at hx
    have := hinv.1 x hx
    simp
    omega
  · intro p hp
    rw [alloc_reg] at hp ⊢
    rw [getS_alloc_old c s _ (hinv.1 _ ((mem_iff_getD _ _).mpr ⟨p, hp, rfl⟩))]
    exact hinv.2.1 p hp
  · intro x hx
    rw [alloc_reg]
    rw [alloc_heap_length] at hx
    by_cases hxl : x < c.heap.length
    · rw [getS_alloc_old c s _ hxl]
      exact hinv.2.2 x hxl
    · have hxe : x = c.heap.length := by omega
      subst hxe
      have hg : (c.alloc s).1.getS c.heap.length = s := getS_alloc_new c s
      rw [hg]
      constructor
      · intro hm
        exact absurd (hinv.1 _ hm) (by omega)
      · intro hpos
        omega

theorem RegInv_appendSleeper (c : FakeClock) (id : Nat) (hid : id < c.heap.length)
    (hnm : id ∉ c.reg)
    (h1 : ∀ x ∈ c.reg, x < c.heap.length)
    (h2 : ∀ p, p < c.reg.length → (c.getS (c.reg.getD p 0)).i = (p : Int))
    (h3 : ∀ x, x < c.heap.length → x ≠ id → (x ∈ c.reg ↔ 0 ≤ (c.getS x).i)) :
    RegInv (appendSleeper c id) := by
  have hlen : (appendSleeper c id).heap.length = c.heap.length :=
    appendSleeper_heap_length c id
  by_cases hd : (c.getS id).untilT ≤ c.atT
  · have hreg : (appendSleeper c id).reg = c.reg := appendSleeper_reg_due c id hd
    have hgid : (appendSleeper c id).getS id = Sleeper.wake { c.getS id with i := -1 } :=
      appendSleeper_getS_self_due c id hd hid
    refine ⟨?_, ?_, ?_⟩
    · intro x hx
      rw [hreg] at hx
      rw [hlen]
      exact h1 x hx
    · intro p hp
      rw [hreg] at hp ⊢
      have hvm : c.reg.getD p 0 ∈ c.reg := (mem_iff_getD _ _).mpr ⟨p, hp, rfl⟩
      rw [appendSleeper_getS_ne c id _ (fun he => hnm (he ▸ hvm))]
      exact h2 p hp
    · intro x hx
      rw [hreg]
      rw [hlen] at hx
      by_cases hxe : x = id
      · subst hxe
        rw [hgid]
        constructor
        · intro hm
          exact absurd hm hnm
        · intro hpos
          rw [wake_i] at hpos
          have hcon : (0 : Int) ≤ -1 := hpos
          exact absurd hcon (by decide)
      · rw [appendSleeper_getS_ne c id _ hxe]
        exact h3 x hx hxe
  · have hfut : c.atT < (c.getS id).untilT := by omega
    have hreg : (appendSleeper c id).reg = c.reg ++ [id] := appendSleeper_reg_future c id hfut
    have hgid : (appendSleeper c id).getS id = { c.getS id with i := (c.reg.length : Int) } :=
      appendSleeper_getS_self_future c id hfut hid
    refine ⟨?_, ?_, ?_⟩
    · intro x hx
      rw [hreg] at hx
      rw [hlen]
      rcases List.mem_append.mp hx with hx1 | hx1
      · exact h1 x hx1
      · have : x = id := by simpa using hx1
        rw [this]
        exact hid
    · intro p hp
      rw [hreg] at hp ⊢
      rw [List.length_append, List.length_singleton] at hp
      by_cases hpe : p < c.reg.length
      · rw [List.getD_append _ _ _ _ hpe]
        have hvm : c.reg.getD p 0 ∈ c.reg := (mem_iff_getD _ _).mpr ⟨p, hpe, rfl⟩
        rw [appendSleeper_getS_ne c id _ (fun he => hnm (he ▸ hvm))]
        exact h2 p hpe
      · have hpeq : p = c.reg.length := by omega
        subst hpeq
        rw [List.getD_append_right _ _ _ _ (le_refl _), Nat.sub_self]
        show ((appendSleeper c id).getS id).i = ((c.reg.length : Nat) : Int)
        rw [hgid]
    · intro x hx
      rw [hreg]
      rw [hlen] at hx
      by_cases hxe : x = id
      · subst hxe
        rw [hgid]
        simp
      · rw [appendSleeper_getS_ne c id _ hxe]
        rw [List.mem_append]
        constructor
        · intro hm
          rcases hm with hm | hm
          · exact (h3 x hx hxe).mp hm
          · exact absurd (by simpa using hm) hxe
        · intro hpos
          exact Or.inl ((h3 x hx hxe).mpr hpos)

theorem RegInv_appendSleeper_of_inv (c : FakeClock) (id : Nat) (hinv : RegInv c)
    (hid : id < c.heap.length) (hnm : id ∉ c.reg) : RegInv (appendSleeper c id) :=
  RegInv_appendSleeper c id hid hnm hinv.1 hinv.2.1 (fun x hx _ => hinv.2.2 x hx)

theorem RegInv_removeSleeper (c : FakeClock) (id : Nat) (hinv : RegInv c)
    (hid : id < c.heap.length) : RegInv (removeSleeper c id).1 := by
  by_cases hpos : 0 ≤ (c.getS id).i
  · exact removeSleeper_pos_RegInv c id hinv hid hpos
  · rw [removeSleeper_neg c id (by omega)]
    exact hinv

theorem RegInv_of_heap_reg_eq (c c' : FakeClock) (hh : c'.heap = c.heap)
    (hr : c'.reg = c.reg) (hinv : RegInv c) : RegInv c' := by
  have hg : ∀ x, c'.getS x = c.getS x := by
    intro x
    unfold FakeClock.getS
    rw [hh]
  refine ⟨?_, ?_, ?_⟩
  · intro x hx
    rw [hr] at hx
    rw [hh]
    exact hinv.1 x hx
  · intro p hp
    rw [hr] at hp ⊢
    rw [hg]
    exact hinv.2.1 p hp
  · intro x hx
    rw [hh] at hx
    rw [hr, hg]
    exact hinv.2.2 x hx

end Clock

namespace Clock

/-- Behaviour of re-offering a list of distinct pending sleepers to
`appendSleeper` (the loop body of `checkSleepers`): the instant and heap
size are unchanged, the registry ends as the prior registry followed by the
still-future sleepers in order, untouched sleepers keep their state, future
sleepers keep their payload, due sleepers are woken exactly once with their
index cleared, and the registry invariant holds afterwards. -/
theorem foldl_appendSleeper_spec (l : List Nat) (c : FakeClock)
    (hsub : ∀ x ∈ l, x < c.heap.length)
    (hnd : (c.reg ++ l).Nodup)
    (hr0 : ∀ x ∈ c.reg, x < c.heap.length)
    (h2 : ∀ p, p < c.reg.length → (c.getS (c.reg.getD p 0)).i = (p : Int))
    (h3 : ∀ x, x < c.heap.length → (x ∈ c.reg ++ l ↔ 0 ≤ (c.getS x).i)) :
    (l.foldl appendSleeper c).atT = c.atT ∧
    (l.foldl appendSleeper c).heap.length = c.heap.length ∧
    (l.foldl appendSleeper c).reg =
      c.reg ++ l.filter (fun x => decide (c.atT < (c.getS x).untilT)) ∧
    (∀ x, x ∉ l → (l.foldl appendSleeper c).getS x = c.getS x) ∧
    (∀ x ∈ l, c.atT < (c.getS x).untilT →
      ((l.foldl appendSleeper c).getS x).data = (c.getS x).data) ∧
    (∀ x ∈ l, (c.getS x).untilT ≤ c.atT →
      (l.foldl appendSleeper c).getS x = Sleeper.wake { c.getS x with i := -1 }) ∧
    RegInv (l.foldl appendSleeper c) := by
  induction l generalizing c with
  | nil =>
    refine ⟨rfl, rfl, by simp, fun x _ => rfl, by simp, by simp, ?_⟩
    refine ⟨hr0, h2, ?_⟩
    intro x hx
    have := h3 x hx
    simpa using this
  | cons a t ih =>
    have ha : a < c.heap.length := hsub a (List.mem_cons_self a t)
    have hnd' := hnd
    rw [List.nodup_append] at hnd'
    have hanotr : a ∉ c.reg := fun hm => hnd'.2.2 hm (List.mem_cons_self a t)
    have hat : a ∉ t := by
      have := hnd'.2.1
      rw [List.nodup_cons] at this
      exact this.1
    have hfold : ((a :: t).foldl appendSleeper c) = t.foldl appendSleeper (appendSleeper c a) :=
      rfl
    have hc1atT : (appendSleeper c a).atT = c.atT := appendSleeper_atT c a
    have hc1len : (appendSleeper c a).heap.length = c.heap.length :=
      appendSleeper_heap_length c a
    have hc1ne : ∀ x, x ≠ a → (appendSleeper c a).getS x = c.getS x :=
      fun x hx => appendSleeper_getS_ne c a x hx
    have hnd_rt : (c.reg ++ t).Nodup :=
      List.Nodup.sublist (List.Sublist.append_left (List.sublist_cons_self a t) c.reg) hnd
    by_cases hd : (c.getS a).untilT ≤ c.atT
    · have hreg1 : (appendSleeper c a).reg = c.reg := appendSleeper_reg_due c a hd
      have hgid1 : (appendSleeper c a).getS a = Sleeper.wake { c.getS a with i := -1 } :=
        appendSleeper_getS_self_due c a hd ha
      have ihc := ih (appendSleeper c a)
        (by
          rw [hc1len]
          exact fun x hx => hsub x (List.mem_cons_of_mem a hx))
        (by rw [hreg1]; exact hnd_rt)
        (by
          rw [hreg1, hc1len]
          exact hr0)
        (by
          rw [hreg1]
          intro p hp
          have hvm : c.reg.getD p 0 ∈ c.reg := (mem_iff_getD _ _).mpr ⟨p, hp, rfl⟩
          rw [hc1ne _ (fun he => hanotr (he ▸ hvm))]
          exact h2 p hp)
        (by
          intro x hx
          rw [hc1len] at hx
          rw [hreg1]
          by_cases hxa : x = a
          · subst hxa
            constructor
            · intro hm
              rcases List.mem_append.mp hm with hm | hm
              · exact absurd hm hanotr
              · exact absurd hm hat
            · intro hpos
              rw [hgid1, wake_i] at hpos
              have hcon : (0 : Int) ≤ -1 := hpos
              exact absurd hcon (by decide)
          · rw [hc1ne _ hxa]
            have hmemiff : x ∈ c.reg ++ t ↔ x ∈ c.reg ++ a :: t := by
              simp only [List.mem_append, List.mem_cons]
              constructor
              · rintro (h | h)
                · exact Or.inl h
                · exact Or.inr (Or.inr h)
              · rintro (h | h | h)
                · exact Or.inl h
                · exact absurd h.symm (fun he => hxa (by rw [he]))
                · exact Or.inr h
            rw [hmemiff]
            exact h3 x hx)
      rw [hfold]
      obtain ⟨i1, i2, i3, i4, i5, i6, i7⟩ := ihc
      refine ⟨by rw [i1, hc1atT], by rw [i2, hc1len], ?_, ?_, ?_, ?_, i7⟩
      · rw [i3, hreg1, hc1atT]
        have hfa : (decide (c.atT < (c.getS a).untilT)) = false := by
          simp only [decide_eq_false_iff_not]
          omega
        rw [List.filter_cons, hfa]
        simp only [Bool.false_eq_true, if_false]
        congr 1
        apply List.filter_congr
        intro x hx
        rw [hc1ne _ (fun he => hat (he ▸ hx))]
      · intro x hx
        have hxa : x ≠ a := fun he => hx (he ▸ List.mem_cons_self a t)
        have hxt : x ∉ t := fun hm => hx (List.mem_cons_of_mem a hm)
        rw [i4 x hxt, hc1ne _ hxa]
      · intro x hx hfut
        rcases List.mem_cons.mp hx with hxa | hxt
        · subst hxa
          omega
        · have hxa : x ≠ a := fun he => hat (he ▸ hxt)
          have := i5 x hxt (by rw [hc1ne _ hxa, hc1atT]; exact hfut)
          rw [hc1ne _ hxa] at this
          exact this
      · intro x hx hdue
        rcases List.mem_cons.mp hx with hxa | hxt
        · subst hxa
          rw [i4 x hat, hgid1]
        · have hxa : x ≠ a := fun he => hat (he ▸ hxt)
          have := i6 x hxt (by rw [hc1ne _ hxa, hc1atT]; exact hdue)
          rw [hc1ne _ hxa] at this
          exact this
    · have hfut : c.atT < (c.getS a).untilT := by omega
      have hreg1 : (appendSleeper c a).reg = c.reg ++ [a] := appendSleeper_reg_future c a hfut
      have hgid1 : (appendSleeper c a).getS a =
          { c.getS a with i := (c.reg.length : Int) } :=
        appendSleeper_getS_self_future c a hfut ha
      have ihc := ih (appendSleeper c a)
        (by
          rw [hc1len]
          exact fun x hx => hsub x (List.mem_cons_of_mem a hx))
        (by
          rw [hreg1, List.append_assoc, List.singleton_append]
          exact hnd)
        (by
          rw [hreg1, hc1len]
          intro x hx
          rcases List.mem_append.mp hx with hm | hm
          · exact hr0 x hm
          · have : x = a := by simpa using hm
            rw [this]
            exact ha)
        (by
          rw [hreg1]
          intro p hp
          rw [List.length_append, List.length_singleton] at hp
          by_cases hpe : p < c.reg.length
          · rw [List.getD_append _ _ _ _ hpe]
            have hvm : c.reg.getD p 0 ∈ c.reg := (mem_iff_getD _ _).mpr ⟨p, hpe, rfl⟩
            rw [hc1ne _ (fun he => hanotr (he ▸ hvm))]
            exact h2 p hpe
          · have hpeq : p = c.reg.length := by omega
            subst hpeq
            rw [List.getD_append_right _ _ _ _ (le_refl _), Nat.sub_self]
            show ((appendSleeper c a).getS a).i = ((c.reg.length : Nat) : Int)
            rw [hgid1])
        (by
          intro x hx
          rw [hc1len] at hx
          rw [hreg1]
          by_cases hxa : x = a
          · subst hxa
            constructor
            · intro _
              rw [hgid1]
              show (0 : Int) ≤ (c.reg.length : Int)
              omega
            · intro _
              exact List.mem_append.mpr (Or.inl (List.mem_append.mpr (Or.inr (by simp))))
          · rw [hc1ne _ hxa]
            have hmemiff : x ∈ (c.reg ++ [a]) ++ t ↔ x ∈ c.reg ++ a :: t := by
              rw [List.append_assoc, List.singleton_append]
            rw [hmemiff]
            exact h3 x hx)
      rw [hfold]
      obtain ⟨i1, i2, i3, i4, i5, i6, i7⟩ := ihc
      refine ⟨by rw [i1, hc1atT], by rw [i2, hc1len], ?_, ?_, ?_, ?_, i7⟩
      · rw [i3, hreg1, hc1atT]
        have hta : (decide (c.atT < (c.getS a).untilT)) = true := by
          simp only [decide_eq_true_eq]
          omega
        rw [List.filter_cons, hta]
        simp only [if_true]
        rw [List.append_assoc, List.singleton_append]
        congr 2
        apply List.filter_congr
        intro x hx
        rw [hc1ne _ (fun he => hat (he ▸ hx))]
      · intro x hx
        have hxa : x ≠ a := fun he => hx (he ▸ List.mem_cons_self a t)
        have hxt : x ∉ t := fun hm => hx (List.mem_cons_of_mem a hm)
        rw [i4 x hxt, hc1ne _ hxa]
      · intro x hx hfutx
        rcases List.mem_cons.mp hx with hxa | hxt
        · subst hxa
          rw [i4 x hat, hgid1]
          rfl
        · have hxa : x ≠ a := fun he => hat (he ▸ hxt)
          have := i5 x hxt (by rw [hc1ne _ hxa, hc1atT]; exact hfutx)
          rw [hc1ne _ hxa] at this
          exact this
      · intro x hx hduex
        rcases List.mem_cons.mp hx with hxa | hxt
        · subst hxa
          omega
        · have hxa : x ≠ a := fun he => hat (he ▸ hxt)
          have := i6 x hxt (by rw [hc1ne _ hxa, hc1atT]; exact hduex)
          rw [hc1ne _ hxa] at this
          exact this

end Clock

namespace Clock

/-- `checkSleepers` keeps the instant and heap size, keeps exactly the
still-future sleepers (in order), wakes each due sleeper exactly once with
its index cleared, leaves unregistered sleepers alone, and preserves the
registry invariant. -/
theorem checkSleepers_spec (c : FakeClock) (hinv : RegInv c) :
    (checkSleepers c).atT = c.atT ∧
    (checkSleepers c).heap.length = c.heap.length ∧
    (checkSleepers c).reg = c.reg.filter (fun x => decide (c.atT < (c.getS x).untilT)) ∧
    (∀ x, x ∉ c.reg → (checkSleepers c).getS x = c.getS x) ∧
    (∀ x ∈ c.reg, c.atT < (c.getS x).untilT →
      ((checkSleepers c).getS x).data = (c.getS x).data) ∧
    (∀ x ∈ c.reg, (c.getS x).untilT ≤ c.atT →
      (checkSleepers c).getS x = Sleeper.wake { c.getS x with i := -1 }) ∧
    RegInv (checkSleepers c) := by
  have h := foldl_appendSleeper_spec c.reg { c with reg := [] }
    (fun x hx => hinv.1 x hx)
    (by
      show ([] ++ c.reg).Nodup
      rw [List.nil_append]
      exact RegInv.nodup c hinv)
    (fun x hx => absurd hx (List.not_mem_nil x))
    (by
      intro p hp
      simp at hp)
    (by
      intro x hx
      show x ∈ [] ++ c.reg ↔ 0 ≤ (c.getS x).i
      rw [List.nil_append]
      exact hinv.2.2 x hx)
  obtain ⟨s1, s2, s3, s4, s5, s6, s7⟩ := h
  unfold checkSleepers
  refine ⟨s1, s2, ?_, s4, s5, s6, s7⟩
  rw [s3]
  rfl

/-- The C1 statement: a non-positive `advance` is a perfect no-op; a
positive one moves the instant forward by exactly `d`, fires every pending
sleeper whose deadline is at or before the new instant exactly once
(setting its woken flag, delivering the deadline on its channel and/or
invoking its callback exactly once) and removes it from the registry,
keeps every strictly-future sleeper pending with its payload intact, and
leaves sleepers outside the registry untouched. -/
abbrev AdvanceClaim (c : FakeClock) (d : Int) : Prop :=
  (d ≤ 0 → Advance c d = c) ∧
  (0 < d →
    (Advance c d).atT = c.atT + d ∧
    (Advance c d).reg = c.reg.filter (fun x => decide (c.atT + d < (c.getS x).untilT)) ∧
    (∀ x ∈ c.reg, (c.getS x).untilT ≤ c.atT + d →
      ((Advance c d).getS x).woke = true ∧
      ((Advance c d).getS x).sent =
        (c.getS x).sent ++ (if (c.getS x).hasC then [(c.getS x).untilT] else []) ∧
      ((Advance c d).getS x).calls = (c.getS x).calls + (if (c.getS x).hasF then 1 else 0) ∧
      x ∉ (Advance c d).reg) ∧
    (∀ x ∈ c.reg, c.atT + d < (c.getS x).untilT →
      x ∈ (Advance c d).reg ∧ ((Advance c d).getS x).data = (c.getS x).data) ∧
    (∀ x, x ∉ c.reg → (Advance c d).getS x = c.getS x))

/-- C1: `Advance` with positive `d` moves the instant forward by `d`, then
fires every now-due pending sleeper exactly once and keeps the rest
pending; non-positive `d` is a silent no-op. -/
theorem advance_claim (c : FakeClock) (d : Int) (hwf : WF c) : AdvanceClaim c d := by
  constructor
  · intro hd
    unfold Advance
    rw [if_pos hd]
  · intro hd
    have hA : Advance c d = checkSleepers { c with atT := c.atT + d } := by
      unfold Advance
      rw [if_neg (by omega)]
    have hinv' : RegInv { c with atT := c.atT + d } :=
      RegInv_of_heap_reg_eq _ c rfl rfl hwf.1
    obtain ⟨s1, s2, s3, s4, s5, s6, s7⟩ := checkSleepers_spec { c with atT := c.atT + d } hinv'
    have hXg : ∀ y, ({ c with atT := c.atT + d } : FakeClock).getS y = c.getS y := fun _ => rfl
    have hXa : ({ c with atT := c.atT + d } : FakeClock).atT = c.atT + d := rfl
    have hXr : ({ c with atT := c.atT + d } : FakeClock).reg = c.reg := rfl
    simp only [hXg, hXa, hXr] at s1 s2 s3 s4 s5 s6
    rw [hA]
    refine ⟨s1, s3, ?_, ?_, s4⟩
    · intro x hx hdue
      have hwoke : (c.getS x).woke = false := (hwf.2 x hx).1
      have hfire := s6 x hx hdue
      have hw2 : (Sleeper.mk (-1) (c.getS x).untilT (c.getS x).woke (c.getS x).hasC
          (c.getS x).sent (c.getS x).hasF (c.getS x).calls).woke = false := hwoke
      rw [hfire, wake_of_not_woke _ hw2]
      refine ⟨rfl, by simp, by simp, ?_⟩
      rw [s3]
      intro hm
      have := List.of_mem_filter hm
      simp only [decide_eq_true_eq] at this
      omega
    · intro x hx hfut
      refine ⟨?_, s5 x hx hfut⟩
      rw [s3]
      exact List.mem_filter.mpr ⟨hx, by simpa using hfut⟩

/-- Witness for C1: the spec's own scenario — a clock at instant 1 with
two pending sleepers for deadlines 2 and 3, advanced by 1 (fires only the
first) after checking that advancing by 0 changes nothing. -/
theorem advance_claim_witness :
    WF (After (After (NewFakeClockAt 1) 1).1 2).1 ∧
    AdvanceClaim (After (After (NewFakeClockAt 1) 1).1 2).1 1 :=
  ⟨by decide, advance_claim (After (After (NewFakeClockAt 1) 1).1 2).1 1 (by decide)⟩

end Clock

namespace Clock

theorem RegInv_alloc_append (c : FakeClock) (s : Sleeper) (hinv : RegInv c) :
    RegInv (appendSleeper (c.alloc s).1 (c.alloc s).2) := by
  have hid : (c.alloc s).2 < (c.alloc s).1.heap.length := by simp
  have hnm : (c.alloc s).2 ∉ (c.alloc s).1.reg := by
    rw [alloc_reg, alloc_snd]
    intro hm
    exact absurd (hinv.1 _ hm) (by omega)
  apply RegInv_appendSleeper _ _ hid hnm
  · intro x hx
    rw [alloc_reg] at hx
    have := hinv.1 x hx
    rw [alloc_heap_length]
    omega
  · intro p hp
    rw [alloc_reg] at hp ⊢
    rw [getS_alloc_old c s _ (hinv.1 _ ((mem_iff_getD _ _).mpr ⟨p, hp, rfl⟩))]
    exact hinv.2.1 p hp
  · intro x hx hxe
    rw [alloc_heap_length] at hx
    rw [alloc_snd] at hxe
    have hxl : x < c.heap.length := by omega
    rw [alloc_reg, getS_alloc_old c s _ hxl]
    exact hinv.2.2 x hxl

theorem tickerChanC_stopped (tk : Ticker) (c : FakeClock) (h : tk.stopped = true) :
    Ticker.chanC tk c = (c, tk, none) := by
  unfold Ticker.chanC
  rw [if_pos h]

theorem RegInv_timerReset (t : Timer) (c : FakeClock) (d : Int) (hinv : RegInv c)
    (ht : t.sid < c.heap.length) : RegInv (Timer.Reset t c d).1 := by
  have hred : Timer.Reset t c d =
      (if ((removeSleeper (c.setS t.sid
              { c.getS t.sid with
                  untilT := c.atT + (if d < 0 then 0 else d), woke := false,
                  sent := [] }) t.sid).1.getS t.sid).hasF = true
        then appendSleeper (removeSleeper (c.setS t.sid
              { c.getS t.sid with
                  untilT := c.atT + (if d < 0 then 0 else d), woke := false,
                  sent := [] }) t.sid).1 t.sid
        else (removeSleeper (c.setS t.sid
              { c.getS t.sid with
                  untilT := c.atT + (if d < 0 then 0 else d), woke := false,
                  sent := [] }) t.sid).1,
       (removeSleeper (c.setS t.sid
              { c.getS t.sid with
                  untilT := c.atT + (if d < 0 then 0 else d), woke := false,
                  sent := [] }) t.sid).2) := rfl
  set s1 : Sleeper :=
    { c.getS t.sid with
        untilT := c.atT + (if d < 0 then 0 else d), woke := false, sent := [] } with hs1
  set c1 : FakeClock := c.setS t.sid s1 with hc1
  have hsid1 : t.sid < c1.heap.length := by
    rw [hc1, setS_heap_length]
    exact ht
  have hinv1 : RegInv c1 := RegInv_setS_data c t.sid s1 hinv ht rfl
  have hinvr : RegInv (removeSleeper c1 t.sid).1 := RegInv_removeSleeper c1 t.sid hinv1 hsid1
  have hnm : t.sid ∉ (removeSleeper c1 t.sid).1.reg :=
    removeSleeper_not_mem_self c1 t.sid hinv1 hsid1
  have hplen : t.sid < (removeSleeper c1 t.sid).1.heap.length := by
    rw [removeSleeper_heap_length]
    exact hsid1
  rw [hred]
  by_cases hF : ((removeSleeper c1 t.sid).1.getS t.sid).hasF = true
  · rw [if_pos hF]
    exact RegInv_appendSleeper_of_inv _ _ hinvr hplen hnm
  · rw [if_neg hF]
    exact hinvr

/-- C9: every operation of the fake clock preserves the registry
back-pointer invariant (the sleeper stored at position `p` records `p` as
its own index, and a sleeper's recorded index is non-negative exactly when
it is in the registry), and `removeSleeper` — the swap-with-last-and-
truncate removal, whose position updates are exactly what the preserved
invariant asserts — returns `true` iff the removed sleeper was actually
pending. -/
theorem registry_invariant_claim (c : FakeClock) (d : Int) (n : Nat) (t : Timer) (tk : Ticker)
    (hinv : RegInv c) (ht : t.sid < c.heap.length) (htk : tk.sid < c.heap.length) :
    RegInv (After c d).1 ∧
    RegInv (AfterFunc c d).1 ∧
    RegInv (NewTimer c d).1 ∧
    RegInv (Timer.chanC t c) ∧
    RegInv (Timer.Stop t c).1 ∧
    RegInv (Timer.Reset t c d).1 ∧
    (∀ pr : FakeClock × Ticker, NewTicker c d = some pr → RegInv pr.1) ∧
    RegInv (Ticker.chanC tk c).1 ∧
    RegInv (Ticker.tStop tk c).1 ∧
    RegInv (Ticker.tReset tk c d).1 ∧
    RegInv (Advance c d) ∧
    RegInv (Until c n).1 ∧
    (removeSleeper c t.sid).2 = decide (t.sid ∈ c.reg) ∧
    RegInv (removeSleeper c t.sid).1 := by
  refine ⟨?_, ?_, ?_, ?_, ?_, RegInv_timerReset t c d hinv ht, ?_, ?_, ?_, ?_, ?_, ?_,
    removeSleeper_snd c t.sid hinv ht, RegInv_removeSleeper c t.sid hinv ht⟩
  · exact RegInv_alloc_append c _ hinv
  · exact RegInv_alloc_append c _ hinv
  · exact RegInv_alloc c _ hinv (by show (-1 : Int) < 0; decide)
  · unfold Timer.chanC
    by_cases h : (c.getS t.sid).i < 0
    · rw [if_pos h]
      have hnm : t.sid ∉ c.reg := fun hm => absurd ((hinv.2.2 t.sid ht).mp hm) (by omega)
      exact RegInv_appendSleeper_of_inv c t.sid hinv ht hnm
    · rw [if_neg h]
      exact hinv
  · cases hsb : t.stopped with
    | true =>
      rw [timerStop_of_stopped t c hsb]
      exact hinv
    | false =>
      rw [timerStop_of_not_stopped t c hsb]
      by_cases h2 : (removeSleeper c t.sid).2 = true
      · rw [if_pos h2]
        exact RegInv_removeSleeper c t.sid hinv ht
      · rw [if_neg h2]
        exact RegInv_removeSleeper c t.sid hinv ht
  · intro pr hpr
    unfold NewTicker at hpr
    by_cases hd0 : d ≤ 0
    · rw [if_pos hd0] at hpr
      exact absurd hpr (by simp)
    · rw [if_neg hd0] at hpr
      have hpr' : pr.1 = (c.alloc
          { i := -1, untilT := 0, woke := false, hasC := false, sent := [], hasF := false,
            calls := 0 }).1 := by
        cases hpr.symm
        rfl
      rw [hpr']
      exact RegInv_alloc c _ hinv (by show (-1 : Int) < 0; decide)
  · cases hsb : tk.stopped with
    | true =>
      rw [tickerChanC_stopped tk c hsb]
      exact hinv
    | false =>
      rw [tickerChanC_not_stopped tk c hsb]
      exact RegInv_alloc_append c _ hinv
  · exact RegInv_removeSleeper c tk.sid hinv htk
  · have hbase := RegInv_removeSleeper c tk.sid hinv htk
    have hlen2 : tk.sid < (removeSleeper c tk.sid).1.heap.length := by
      rw [removeSleeper_heap_length]
      exact htk
    show RegInv ((removeSleeper c tk.sid).1.setS tk.sid
      { (removeSleeper c tk.sid).1.getS tk.sid with
          untilT := (removeSleeper c tk.sid).1.atT + d })
    exact RegInv_setS_data _ _ _ hbase hlen2 rfl
  · unfold Advance
    by_cases hd0 : d ≤ 0
    · rw [if_pos hd0]
      exact hinv
    · rw [if_neg hd0]
      exact (checkSleepers_spec { c with atT := c.atT + d }
        (RegInv_of_heap_reg_eq _ c rfl rfl hinv)).2.2.2.2.2.2
  · unfold Until
    by_cases hn : n ≤ c.reg.length
    · rw [if_pos hn]
      exact RegInv_of_heap_reg_eq _ c rfl rfl hinv
    · rw [if_neg hn]
      exact RegInv_of_heap_reg_eq _ c rfl rfl hinv

/-- Witness for C9 on a clock with two pending sleepers, a timer handle on
sleeper 0 and a ticker handle on sleeper 1. -/
theorem registry_invariant_claim_witness :
    (RegInv (After (After (NewFakeClockAt 1) 2).1 3).1 ∧
      (Timer.mk false 0).sid < (After (After (NewFakeClockAt 1) 2).1 3).1.heap.length ∧
      (Ticker.mk 1 2 false 1).sid < (After (After (NewFakeClockAt 1) 2).1 3).1.heap.length) ∧
    (RegInv (After (After (After (NewFakeClockAt 1) 2).1 3).1 1).1 ∧
      RegInv (AfterFunc (After (After (NewFakeClockAt 1) 2).1 3).1 1).1 ∧
      RegInv (NewTimer (After (After (NewFakeClockAt 1) 2).1 3).1 1).1 ∧
      RegInv (Timer.chanC (Timer.mk false 0) (After (After (NewFakeClockAt 1) 2).1 3).1) ∧
      RegInv (Timer.Stop (Timer.mk false 0) (After (After (NewFakeClockAt 1) 2).1 3).1).1 ∧
      RegInv (Timer.Reset (Timer.mk false 0) (After (After (NewFakeClockAt 1) 2).1 3).1 1).1 ∧
      (∀ pr : FakeClock × Ticker,
        NewTicker (After (After (NewFakeClockAt 1) 2).1 3).1 1 = some pr → RegInv pr.1) ∧
      RegInv (Ticker.chanC (Ticker.mk 1 2 false 1) (After (After (NewFakeClockAt 1) 2).1 3).1).1 ∧
      RegInv (Ticker.tStop (Ticker.mk 1 2 false 1) (After (After (NewFakeClockAt 1) 2).1 3).1).1 ∧
      RegInv (Ticker.tReset (Ticker.mk 1 2 false 1)
        (After (After (NewFakeClockAt 1) 2).1 3).1 1).1 ∧
      RegInv (Advance (After (After (NewFakeClockAt 1) 2).1 3).1 1) ∧
      RegInv (Until (After (After (NewFakeClockAt 1) 2).1 3).1 1).1 ∧
      (removeSleeper (After (After (NewFakeClockAt 1) 2).1 3).1 (Timer.mk false 0).sid).2 =
        decide ((Timer.mk false 0).sid ∈ (After (After (NewFakeClockAt 1) 2).1 3).1.reg) ∧
      RegInv (removeSleeper (After (After (NewFakeClockAt 1) 2).1 3).1
        (Timer.mk false 0).sid).1) :=
  ⟨⟨by decide, by decide, by decide⟩,
    registry_invariant_claim (After (After (NewFakeClockAt 1) 2).1 3).1 1 1
      (Timer.mk false 0) (Ticker.mk 1 2 false 1) (by decide) (by decide) (by decide)⟩

end Clock
